import Mathlib

/-!
# Verification of the oxidicom reception-and-fanout pipeline

Shallow embedding, in Lean 4, of the parts of the oxidicom DICOM SCP that the
specification's claims are about: the LONK message encoding (src/src/lonk.rs),
the messenger stage (src/src/messenger.rs), the series synchronizer
(src/src/series_synchronizer.rs), the per-subject rate limiter
(src/src/limiter.rs) with the LONK publisher loop (src/src/lonk_publisher.rs),
the registration publisher (src/src/celery_publisher.rs) with the celery task
construction (src/src/types.rs), the storage-path sanitizer
(src/src/sanitize.rs) and path derivation (src/src/pacs_file.rs).

The repository snapshot mixes several revisions of the crate; the embedded
definitions follow the revision wired together by src/src/run_everything.rs
(association state loop → series synchronizer → messenger → LONK publisher +
celery publisher).  Each definition's doc comment names its source.
-/

set_option autoImplicit false

namespace Oxidicom

/-- The AE title of a peer PACS server (src/src/types.rs `AETitle`): a newtype
over `String`, modelled as a plain `String`. -/
abbrev AETitle := String

/-- src/src/types.rs lines 109-116, `SeriesKey`: "The set of metadata which
uniquely identifies a DICOM series in *CUBE*."  In that file it has exactly the
two fields `SeriesInstanceUID` and `pacs_name` (no association identifier). -/
structure SeriesKey where
  SeriesInstanceUID : String
  pacs_name : AETitle
deriving DecidableEq, Repr

/-- src/src/types.rs lines 118-125, `SeriesKey::new`. -/
def SeriesKey.new (series_instance_uid : String) (pacs_name : AETitle) : SeriesKey :=
  { SeriesInstanceUID := series_instance_uid, pacs_name := pacs_name }

/-- `SeriesEvent<T, F>`: tagged variant `Instance(T)` / `Finish(F)`.  The file
holding its definition (the current revision of src/src/enums.rs) is absent
from the snapshot; its two constructors are fixed by every use in
src/src/series_synchronizer.rs and src/src/messenger.rs. -/
inductive SeriesEvent (T F : Type) where
  | inst : T → SeriesEvent T F
  | finish : F → SeriesEvent T F
deriving DecidableEq, Repr

/-- A calendar date, modelling `time::Date` as stored in `DicomInfo.StudyDate`
(src/src/types.rs).  `StudyDate` is parsed from a 4-digit DICOM DA year, so a
`Nat` year suffices. -/
structure Date where
  year : Nat
  month : Nat
  day : Nat
deriving DecidableEq, Repr

/-- src/src/types.rs lines 57-74, `DicomInfo<P>` at `P = SeriesPath` (paths are
modelled as strings): the normalized series metadata carried by Finish events. -/
structure DicomInfo where
  PatientID : String
  StudyDate : Date
  StudyInstanceUID : String
  SeriesInstanceUID : String
  pacs_name : AETitle
  path : String
  PatientName : Option String
  PatientBirthDate : Option String
  PatientAge : Option Int
  PatientSex : Option String
  AccessionNumber : Option String
  Modality : Option String
  ProtocolName : Option String
  StudyDescription : Option String
  SeriesDescription : Option String
deriving DecidableEq, Repr

/-! ## LONK messages (src/src/lonk.rs) -/

/-- src/src/lonk.rs lines 41-45, `LonkMessage`.  A storage error is carried as
its display string (`DicomStorageError::to_string`). -/
inductive LonkMessage where
  | done
  | ndicom (n : Nat)
  | error (text : String)
deriving DecidableEq, Repr

/-- src/src/lonk.rs lines 13-16, `Lonk`. -/
structure Lonk where
  series : SeriesKey
  message : LonkMessage
deriving DecidableEq, Repr

/-- src/src/lonk.rs `Lonk::done`. -/
def Lonk.done (series : SeriesKey) : Lonk := ⟨series, .done⟩

/-- src/src/lonk.rs `Lonk::ndicom`. -/
def Lonk.ndicom (series : SeriesKey) (n : Nat) : Lonk := ⟨series, .ndicom n⟩

/-- src/src/lonk.rs `Lonk::error`. -/
def Lonk.error (series : SeriesKey) (e : String) : Lonk := ⟨series, .error e⟩

/-- src/src/lonk_publisher.rs lines 111-120, `LonkPriority`. -/
inductive LonkPriority where
  | optional
  | required
  | last
deriving DecidableEq, Repr

/-- src/src/lonk_publisher.rs lines 84-88, `PublishLonkParams`. -/
structure PublishLonkParams where
  lonk : Lonk
  priority : LonkPriority
deriving DecidableEq, Repr

/-- src/src/lonk_publisher.rs `PublishLonkParams::optional`. -/
def PublishLonkParams.optional (l : Lonk) : PublishLonkParams := ⟨l, .optional⟩

/-- src/src/lonk_publisher.rs `PublishLonkParams::required`. -/
def PublishLonkParams.required (l : Lonk) : PublishLonkParams := ⟨l, .required⟩

/-- src/src/lonk_publisher.rs `PublishLonkParams::last`. -/
def PublishLonkParams.last (l : Lonk) : PublishLonkParams := ⟨l, .last⟩

/-! ## The messenger stage (src/src/messenger.rs) -/

/-- Successor of a Rust `u32`: `*count += 1` wraps at `2^32` in release
builds. -/
def u32succ (c : Nat) : Nat := (c + 1) % 4294967296

/-- src/src/messenger.rs line 13, `SeriesCounts = HashMap<SeriesKey, u32>`,
modelled as a total function to `Option Nat` (absent key ↦ `none`). -/
def SeriesCounts := SeriesKey → Option Nat

/-- `HashMap::insert`. -/
def SeriesCounts.insert (counts : SeriesCounts) (k : SeriesKey) (v : Nat) : SeriesCounts :=
  fun k' => if k' = k then some v else counts k'

/-- `HashMap::remove` (the messenger discards the removed value after reading it). -/
def SeriesCounts.remove (counts : SeriesCounts) (k : SeriesKey) : SeriesCounts :=
  fun k' => if k' = k then none else counts k'

/-- src/src/messenger.rs lines 66-85, `count_series`: on a successful instance,
increment the series count (insert 1 on first sight, which yields a
required-priority message; later increments yield optional priority); on a
storage error, leave the count alone and yield a required-priority error
message.  The Rust function mutates `counts`; here the updated map is
returned. -/
def count_series (series : SeriesKey) (counts : SeriesCounts)
    (result : Except String Unit) : SeriesCounts × PublishLonkParams :=
  match result with
  | .ok _ =>
    match counts series with
    | some count =>
        (counts.insert series (u32succ count),
         PublishLonkParams.optional (Lonk.ndicom series (u32succ count)))
    | none =>
        (counts.insert series 1,
         PublishLonkParams.required (Lonk.ndicom series 1))
  | .error e => (counts, PublishLonkParams.required (Lonk.error series e))

/-- src/src/messenger.rs lines 45-64, `create_messages_for`: translate one
resolved series event into LONK messages and (on Finish) one registration
parameter.  Returns the updated count map alongside. -/
def create_messages_for (counts : SeriesCounts) (series_key : SeriesKey)
    (event : SeriesEvent (Except String Unit) DicomInfo) :
    SeriesCounts × List PublishLonkParams × Option (DicomInfo × Nat) :=
  match event with
  | .inst result =>
      let p := count_series series_key counts result
      (p.1, [p.2], none)
  | .finish series_info =>
      let ndicom := (counts series_key).getD 0
      (counts.remove series_key,
       [PublishLonkParams.required (Lonk.ndicom series_key ndicom),
        PublishLonkParams.last (Lonk.done series_key)],
       some (series_info, ndicom))

/-- src/src/messenger.rs lines 16-37, `messenger`: fold `create_messages_for`
over the incoming event stream, concatenating the LONK messages (sent to
`tx_lonk` in order) and the registration parameters (sent to `tx_celery`). -/
def messenger (counts : SeriesCounts)
    (events : List (SeriesKey × SeriesEvent (Except String Unit) DicomInfo)) :
    List PublishLonkParams × List (DicomInfo × Nat) :=
  match events with
  | [] => ([], [])
  | (series, event) :: rest =>
      let out := create_messages_for counts series event
      let tail := messenger out.1 rest
      (out.2.1 ++ tail.1, (out.2.2).toList ++ tail.2)

/-- The `ndicom` progress values (with their priorities) that a list of LONK
messages carries for a given series key, in emission order. -/
def ndicomEntriesFor (k : SeriesKey) (lonks : List PublishLonkParams) :
    List (Nat × LonkPriority) :=
  lonks.filterMap fun p =>
    match p.lonk.message with
    | .ndicom n => if p.lonk.series = k then some (n, p.priority) else none
    | _ => none

/-- The `ndicom` progress values for a series key, without priorities. -/
def ndicomValuesFor (k : SeriesKey) (lonks : List PublishLonkParams) : List Nat :=
  (ndicomEntriesFor k lonks).map Prod.fst

/-- The events of the stream addressed to one series key. -/
def eventsFor (k : SeriesKey)
    (evs : List (SeriesKey × SeriesEvent (Except String Unit) DicomInfo)) :
    List (SeriesEvent (Except String Unit) DicomInfo) :=
  evs.filterMap fun e => if e.1 = k then some e.2 else none

/-- Number of successful instance events in a single-series event list. -/
def okCountE : List (SeriesEvent (Except String Unit) DicomInfo) → Nat
  | [] => 0
  | .inst (.ok _) :: rest => okCountE rest + 1
  | .inst (.error _) :: rest => okCountE rest
  | .finish _ :: rest => okCountE rest

/-- The `ndicom` entries the messenger produces for one series, as a function
of that series' count state and its own event list (derived from
`count_series` and the Finish arm of `create_messages_for`). -/
def seriesNdicomFrom : Option Nat → List (SeriesEvent (Except String Unit) DicomInfo) →
    List (Nat × LonkPriority)
  | _, [] => []
  | some n, .inst (.ok _) :: rest =>
      (u32succ n, .optional) :: seriesNdicomFrom (some (u32succ n)) rest
  | none, .inst (.ok _) :: rest => (1, .required) :: seriesNdicomFrom (some 1) rest
  | c, .inst (.error _) :: rest => seriesNdicomFrom c rest
  | c, .finish _ :: rest => (c.getD 0, .required) :: seriesNdicomFrom none rest

/-- A concrete series key used in the counterexample evaluations. -/
def kDemo : SeriesKey := SeriesKey.new "1.2.3" "PACS"

/-- A concrete `DicomInfo` used in the counterexample evaluations. -/
def infoDemo : DicomInfo :=
  { PatientID := "p"
    StudyDate := ⟨2024, 1, 2⟩
    StudyInstanceUID := "1.2"
    SeriesInstanceUID := "1.2.3"
    pacs_name := "PACS"
    path := "d"
    PatientName := none
    PatientBirthDate := none
    PatientAge := none
    PatientSex := none
    AccessionNumber := none
    Modality := none
    ProtocolName := none
    StudyDescription := none
    SeriesDescription := none }

/-- **C3.** On `Finish(dicom_info)` for series key `k`, the messenger removes
`k`'s count from its map (defaulting to 0 if absent) and emits exactly two
progress-bus messages — a required-priority ndicom message with the final
count followed by a last-priority done message — and exactly one registration
task carrying `(dicom_info, final_count)`. -/
theorem messenger_finish_removes_and_emits (counts : SeriesCounts) (k : SeriesKey)
    (info : DicomInfo) :
    let out := create_messages_for counts k (.finish info)
    let final := (counts k).getD 0
    out.1 k = none ∧
    (∀ k', k' ≠ k → out.1 k' = counts k') ∧
    out.2.1.length = 2 ∧
    out.2.1 = [PublishLonkParams.required (Lonk.ndicom k final),
               PublishLonkParams.last (Lonk.done k)] ∧
    out.2.2 = some (info, final) := by
  refine ⟨?_, ?_, rfl, rfl, rfl⟩
  · simp [create_messages_for, SeriesCounts.remove]
  · intro k' hk'
    simp [create_messages_for, SeriesCounts.remove, hk']

/-- **C2** (demonstration of the code defect).  `SeriesKey` in src/src/types.rs
has no association-identifier field, so the events of two concurrent
associations pushing the same `SeriesInstanceUID` from the same PACS collapse
onto one key: interleaving association 1 (two successful instances) with
association 2 (one successful instance) yields registration tasks with counts
3 and 0 instead of the claimed independent counts 2 and 1.  (The code itself
flags this: src/src/series_synchronizer.rs lines 39-45 say "NEED TO
DISCRIMINATE BETWEEN SERIES BY ASSOCIATION_ULID ... This is a bug.", and the
test fixture in src/src/messenger.rs lines 175-182 constructs a `SeriesKey`
with an `association` field that the `SeriesKey` of src/src/types.rs does not
have.) -/
theorem seriesKey_association_collision :
    SeriesKey.new "1.2.3" "PACS" = SeriesKey.new "1.2.3" "PACS" ∧
    (messenger (fun _ => none)
      [(kDemo, .inst (.ok ())), (kDemo, .inst (.ok ())),
       (kDemo, .inst (.ok ())),
       (kDemo, .finish infoDemo),
       (kDemo, .finish infoDemo)]).2 = [(infoDemo, 3), (infoDemo, 0)] := by
  constructor
  · rfl
  · rfl

/-- **C4** (counterexample).  The claim asserts the whole sequence of `ndicom`
progress values the messenger emits for a series is strictly increasing; but
on Finish the messenger re-emits the final count (src/src/messenger.rs lines
55-62), so a series with one successful instance yields the value sequence
`[1, 1]`, which is not strictly increasing. -/
theorem ndicom_values_not_strictly_increasing :
    ndicomValuesFor kDemo ((messenger (fun _ => none)
      [(kDemo, .inst (.ok ())), (kDemo, .finish infoDemo)]).1) = [1, 1] ∧
    ¬ List.Chain' (· < ·) (ndicomValuesFor kDemo ((messenger (fun _ => none)
      [(kDemo, .inst (.ok ())), (kDemo, .finish infoDemo)]).1)) := by
  refine ⟨rfl, ?_⟩
  intro h
  rw [show ndicomValuesFor kDemo ((messenger (fun _ => none)
      [(kDemo, .inst (.ok ())), (kDemo, .finish infoDemo)]).1) = [1, 1] from rfl] at h
  simp [List.chain'_cons] at h

theorem ndicomEntriesFor_nil (k : SeriesKey) : ndicomEntriesFor k [] = [] := rfl

theorem ndicomEntriesFor_ndicom_cons (k s : SeriesKey) (n : Nat) (pr : LonkPriority)
    (l : List PublishLonkParams) :
    ndicomEntriesFor k (⟨Lonk.ndicom s n, pr⟩ :: l) =
      (if s = k then [(n, pr)] else []) ++ ndicomEntriesFor k l := by
  simp only [ndicomEntriesFor, Lonk.ndicom, List.filterMap_cons]
  split <;> simp_all

theorem ndicomEntriesFor_error_cons (k s : SeriesKey) (e : String) (pr : LonkPriority)
    (l : List PublishLonkParams) :
    ndicomEntriesFor k (⟨Lonk.error s e, pr⟩ :: l) = ndicomEntriesFor k l := by
  simp [ndicomEntriesFor, Lonk.error, List.filterMap_cons]

theorem ndicomEntriesFor_done_cons (k s : SeriesKey) (pr : LonkPriority)
    (l : List PublishLonkParams) :
    ndicomEntriesFor k (⟨Lonk.done s, pr⟩ :: l) = ndicomEntriesFor k l := by
  simp [ndicomEntriesFor, Lonk.done, List.filterMap_cons]

theorem SeriesCounts.insert_self (counts : SeriesCounts) (k : SeriesKey) (v : Nat) :
    (counts.insert k v) k = some v := by
  simp [SeriesCounts.insert]

theorem SeriesCounts.insert_other (counts : SeriesCounts) (k k' : SeriesKey) (v : Nat)
    (h : ¬ (k' = k)) : (counts.insert k v) k' = counts k' := by
  simp [SeriesCounts.insert, h]

theorem SeriesCounts.remove_self (counts : SeriesCounts) (k : SeriesKey) :
    (counts.remove k) k = none := by
  simp [SeriesCounts.remove]

theorem SeriesCounts.remove_other (counts : SeriesCounts) (k k' : SeriesKey)
    (h : ¬ (k' = k)) : (counts.remove k) k' = counts k' := by
  simp [SeriesCounts.remove, h]

/-- Localization: the `ndicom` entries the messenger emits for key `k` depend
only on `k`'s own count state and `k`'s own sub-stream of events. -/
theorem messenger_ndicom_localize (k : SeriesKey)
    (evs : List (SeriesKey × SeriesEvent (Except String Unit) DicomInfo)) :
    ∀ counts : SeriesCounts,
    ndicomEntriesFor k (messenger counts evs).1 =
      seriesNdicomFrom (counts k) (eventsFor k evs) := by
  induction evs with
  | nil =>
    intro counts
    simp [messenger, ndicomEntriesFor, eventsFor, seriesNdicomFrom]
  | cons e rest ih =>
    intro counts
    obtain ⟨k', ev⟩ := e
    by_cases hk : k' = k
    · subst hk
      cases ev with
      | inst result =>
        cases result with
        | ok u =>
          cases hc : counts k' with
          | none =>
            simp [messenger, create_messages_for, count_series, hc, eventsFor,
              List.filterMap_cons, ih, SeriesCounts.insert_self, seriesNdicomFrom,
              PublishLonkParams.required, ndicomEntriesFor_ndicom_cons]
          | some n =>
            simp [messenger, create_messages_for, count_series, hc, eventsFor,
              List.filterMap_cons, ih, SeriesCounts.insert_self, seriesNdicomFrom,
              PublishLonkParams.optional, ndicomEntriesFor_ndicom_cons]
        | error e =>
          simp [messenger, create_messages_for, count_series, eventsFor,
            List.filterMap_cons, ih, seriesNdicomFrom,
            PublishLonkParams.required, ndicomEntriesFor_error_cons]
      | finish info =>
        simp [messenger, create_messages_for, eventsFor,
          List.filterMap_cons, ih, SeriesCounts.remove_self, seriesNdicomFrom,
          PublishLonkParams.required, PublishLonkParams.last,
          ndicomEntriesFor_ndicom_cons, ndicomEntriesFor_done_cons]
    · have hk' : ¬ (k' = k) := hk
      cases ev with
      | inst result =>
        cases result with
        | ok u =>
          cases hc : counts k' with
          | none =>
            simp [messenger, create_messages_for, count_series, hc, eventsFor,
              List.filterMap_cons, ih, SeriesCounts.insert_other _ _ _ _ (Ne.symm hk), hk',
              PublishLonkParams.required, ndicomEntriesFor_ndicom_cons]
          | some n =>
            simp [messenger, create_messages_for, count_series, hc, eventsFor,
              List.filterMap_cons, ih, SeriesCounts.insert_other _ _ _ _ (Ne.symm hk), hk',
              PublishLonkParams.optional, ndicomEntriesFor_ndicom_cons]
        | error e =>
          simp [messenger, create_messages_for, count_series, eventsFor,
            List.filterMap_cons, ih, hk',
            PublishLonkParams.required, ndicomEntriesFor_error_cons]
      | finish info =>
        simp [messenger, create_messages_for, eventsFor,
          List.filterMap_cons, ih, SeriesCounts.remove_other _ _ _ (Ne.symm hk), hk',
          PublishLonkParams.required, PublishLonkParams.last,
          ndicomEntriesFor_ndicom_cons, ndicomEntriesFor_done_cons]

/-- Single-series run of `count_series` from an existing count `m`, ending in
Finish: values count up from `m+1`, all optional, and the Finish entry repeats
the total with required priority. -/
theorem seriesNdicomFrom_some (info : DicomInfo) :
    ∀ (E : List (SeriesEvent (Except String Unit) DicomInfo)) (m : Nat),
      (∀ i : DicomInfo, SeriesEvent.finish i ∉ E) → m + okCountE E < 4294967296 →
      seriesNdicomFrom (some m) (E ++ [.finish info]) =
        (List.range' (m + 1) (okCountE E)).map (fun i => (i, LonkPriority.optional))
          ++ [(m + okCountE E, LonkPriority.required)] := by
  intro E
  induction E with
  | nil =>
    intro m _ _
    simp [seriesNdicomFrom, okCountE]
  | cons e E' ih =>
    intro m hfin hlt
    cases e with
    | inst r =>
      cases r with
      | ok u =>
        have hcnt : okCountE (.inst (.ok u) :: E') = okCountE E' + 1 := rfl
        rw [hcnt] at hlt
        have hsucc : u32succ m = m + 1 := by
          unfold u32succ; omega
        have harith : m + (okCountE E' + 1) = (m + 1) + okCountE E' := by omega
        simp only [List.cons_append, seriesNdicomFrom, List.append_eq, hsucc]
        rw [ih (m + 1) (fun i hi => hfin i (List.mem_cons_of_mem _ hi)) (by omega)]
        rw [hcnt, harith, List.range'_succ, List.map_cons]
        simp
      | error e =>
        have hcnt : okCountE (.inst (.error e) :: E') = okCountE E' := rfl
        rw [hcnt] at hlt
        simp only [List.cons_append, seriesNdicomFrom, List.append_eq]
        rw [ih m (fun i hi => hfin i (List.mem_cons_of_mem _ hi)) hlt, hcnt]
    | finish i =>
      exact absurd (List.mem_cons_self _ _) (hfin i)

/-- Single-series run of `count_series` from an absent count, ending in
Finish: the first successful instance yields a required value 1, every later
one an optional value one greater, and the Finish entry repeats the total with
required priority. -/
theorem seriesNdicomFrom_none (info : DicomInfo) :
    ∀ (E : List (SeriesEvent (Except String Unit) DicomInfo)),
      (∀ i : DicomInfo, SeriesEvent.finish i ∉ E) → okCountE E < 4294967296 →
      seriesNdicomFrom none (E ++ [.finish info]) =
        (List.range' 1 (okCountE E)).map
            (fun i => (i, if i = 1 then LonkPriority.required else LonkPriority.optional))
          ++ [(okCountE E, LonkPriority.required)] := by
  intro E
  induction E with
  | nil =>
    intro _ _
    simp [seriesNdicomFrom, okCountE]
  | cons e E' ih =>
    intro hfin hlt
    cases e with
    | inst r =>
      cases r with
      | ok u =>
        have hcnt : okCountE (.inst (.ok u) :: E') = okCountE E' + 1 := rfl
        rw [hcnt] at hlt
        simp only [List.cons_append, seriesNdicomFrom, List.append_eq]
        rw [seriesNdicomFrom_some info E' 1
          (fun i hi => hfin i (List.mem_cons_of_mem _ hi)) (by omega)]
        rw [hcnt, List.range'_succ, List.map_cons]
        have hmap : (List.range' 2 (okCountE E')).map
            (fun i => (i, if i = 1 then LonkPriority.required else LonkPriority.optional)) =
            (List.range' 2 (okCountE E')).map (fun i => (i, LonkPriority.optional)) := by
          refine List.map_congr_left ?_
          intro a ha
          have h2 : 2 ≤ a := (List.mem_range'_1.mp ha).1
          have : ¬ (a = 1) := by omega
          simp [this]
        rw [hmap]
        simp [Nat.add_comm 1 (okCountE E')]
      | error e =>
        have hcnt : okCountE (.inst (.error e) :: E') = okCountE E' := rfl
        rw [hcnt] at hlt
        simp only [List.cons_append, seriesNdicomFrom, List.append_eq]
        rw [ih (fun i hi => hfin i (List.mem_cons_of_mem _ hi)) hlt, hcnt]
    | finish i =>
      exact absurd (List.mem_cons_self _ _) (hfin i)

/-- **C4 (amended).**  For every association and series key `k` whose count the
messenger has not seen yet, if the stream delivers `k`'s instance results
before `k`'s single Finish (other keys interleaved arbitrarily) and fewer than
`2^32` succeed, then the `ndicom` values the messenger emits for `k` are
`1, 2, ..., n, n` where `n` is the number of successful instance writes: the
first successful instance yields a required-priority 1, each later success an
optional-priority value one greater, failures never increment, and the final
required-priority Finish value repeats the total — so the sequence is
non-empty, non-decreasing (not strictly increasing, because the Finish value
repeats the last instance value), its strictly increasing part is the
instance-derived prefix, and its last value is `n`. -/
theorem messenger_progress_values
    (pre post : List (SeriesKey × SeriesEvent (Except String Unit) DicomInfo))
    (k : SeriesKey) (info : DicomInfo) (counts : SeriesCounts)
    (hinit : counts k = none)
    (hpre : ∀ e ∈ pre, e.1 = k → ∀ i : DicomInfo, e.2 ≠ SeriesEvent.finish i)
    (hpost : ∀ e ∈ post, e.1 ≠ k)
    (hn : okCountE (eventsFor k pre) < 4294967296) :
    let evs := pre ++ (k, SeriesEvent.finish info) :: post
    let n := okCountE (eventsFor k pre)
    ndicomEntriesFor k (messenger counts evs).1 =
      (List.range' 1 n).map
          (fun i => (i, if i = 1 then LonkPriority.required else LonkPriority.optional))
        ++ [(n, LonkPriority.required)] ∧
    ndicomValuesFor k (messenger counts evs).1 = List.range' 1 n ++ [n] ∧
    ndicomValuesFor k (messenger counts evs).1 ≠ [] ∧
    (ndicomValuesFor k (messenger counts evs).1).getLast? = some n ∧
    List.Chain' (· ≤ ·) (ndicomValuesFor k (messenger counts evs).1) ∧
    List.Chain' (· < ·) (List.range' 1 n) := by
  intro evs n
  have hpostnil : eventsFor k post = [] := by
    rw [eventsFor, List.filterMap_eq_nil_iff]
    intro e he
    simp [hpost e he]
  have hsplit : eventsFor k evs = eventsFor k pre ++ [SeriesEvent.finish info] := by
    show eventsFor k (pre ++ (k, SeriesEvent.finish info) :: post) = _
    rw [eventsFor, List.filterMap_append, List.filterMap_cons]
    simp only [if_pos rfl]
    rw [show List.filterMap (fun e => if e.1 = k then some e.2 else none) post =
      eventsFor k post from rfl, hpostnil]
    rfl
  have hnofin : ∀ i : DicomInfo, SeriesEvent.finish i ∉ eventsFor k pre := by
    intro i hi
    rw [eventsFor, List.mem_filterMap] at hi
    obtain ⟨e, he, hfe⟩ := hi
    by_cases hek : e.1 = k
    · rw [if_pos hek] at hfe
      exact hpre e he hek i (Option.some_injective _ hfe)
    · rw [if_neg hek] at hfe
      exact Option.noConfusion hfe
  have hentries : ndicomEntriesFor k (messenger counts evs).1 =
      (List.range' 1 n).map
          (fun i => (i, if i = 1 then LonkPriority.required else LonkPriority.optional))
        ++ [(n, LonkPriority.required)] := by
    rw [messenger_ndicom_localize, hinit, hsplit]
    exact seriesNdicomFrom_none info (eventsFor k pre) hnofin hn
  have hvalues : ndicomValuesFor k (messenger counts evs).1 = List.range' 1 n ++ [n] := by
    rw [ndicomValuesFor, hentries, List.map_append, List.map_map]
    rw [show (Prod.fst ∘ fun i : Nat =>
      (i, if i = 1 then LonkPriority.required else LonkPriority.optional)) = id from rfl]
    simp
  have hchain : List.Chain' (· ≤ ·) (List.range' 1 n ++ [n]) := by
    refine List.Pairwise.chain' ?_
    rw [List.pairwise_append]
    refine ⟨(List.pairwise_lt_range' 1 n).imp (fun h => Nat.le_of_lt h), ?_, ?_⟩
    · simp
    · intro a ha b hb
      rw [List.mem_singleton] at hb
      subst hb
      have := (List.mem_range'_1.mp ha).2
      omega
  refine ⟨hentries, hvalues, ?_, ?_, ?_, (List.pairwise_lt_range' 1 n).chain'⟩
  · rw [hvalues]; simp
  · rw [hvalues]; exact List.getLast?_concat _
  · rw [hvalues]; exact hchain

/-- A one-element event stream prefix used by the C4 witness. -/
def demoPre : List (SeriesKey × SeriesEvent (Except String Unit) DicomInfo) :=
  [(kDemo, .inst (.ok ()))]

/-- Witness for `messenger_progress_values`: a single series with one
successful instance, evaluated concretely. -/
theorem messenger_progress_values_witness :
    ((fun _ => none : SeriesCounts) kDemo = none ∧
     (∀ e ∈ demoPre, e.1 = kDemo → ∀ i : DicomInfo, e.2 ≠ SeriesEvent.finish i) ∧
     (∀ e ∈ ([] : List (SeriesKey × SeriesEvent (Except String Unit) DicomInfo)),
        e.1 ≠ kDemo) ∧
     okCountE (eventsFor kDemo demoPre) < 4294967296) ∧
    (let evs := demoPre ++ (kDemo, SeriesEvent.finish infoDemo) :: []
     let n := okCountE (eventsFor kDemo demoPre)
     ndicomEntriesFor kDemo (messenger (fun _ => none) evs).1 =
       (List.range' 1 n).map
           (fun i => (i, if i = 1 then LonkPriority.required else LonkPriority.optional))
         ++ [(n, LonkPriority.required)] ∧
     ndicomValuesFor kDemo (messenger (fun _ => none) evs).1 = List.range' 1 n ++ [n] ∧
     ndicomValuesFor kDemo (messenger (fun _ => none) evs).1 ≠ [] ∧
     (ndicomValuesFor kDemo (messenger (fun _ => none) evs).1).getLast? = some n ∧
     List.Chain' (· ≤ ·) (ndicomValuesFor kDemo (messenger (fun _ => none) evs).1) ∧
     List.Chain' (· < ·) (List.range' 1 n)) :=
  ⟨⟨rfl, by simp [demoPre], by simp, by decide⟩,
   messenger_progress_values demoPre [] kDemo infoDemo
     (fun _ => none) rfl (by simp [demoPre]) (by simp) (by decide)⟩

/-! ## LONK payload encoding (src/src/lonk.rs) -/

/-- src/src/lonk.rs line 9, `MESSAGE_NDICOM: u8 = 0x01`. -/
def MESSAGE_NDICOM : Nat := 0x01

/-- src/src/lonk.rs line 10, `MESSAGE_ERROR: u8 = 0x02`. -/
def MESSAGE_ERROR : Nat := 0x02

/-- src/src/lonk.rs line 11, `DONE_MESSAGE: [u8; 1] = [0x00]`. -/
def DONE_MESSAGE : List Nat := [0x00]

/-- `u32::to_le_bytes`: little-endian bytes of a `u32` (bytes as `Nat < 256`). -/
def u32ToLeBytes (n : Nat) : List Nat :=
  [n % 256, n / 256 % 256, n / 65536 % 256, n / 16777216 % 256]

/-- src/src/lonk.rs lines 57-59, `done_message`. -/
def done_message : List Nat := DONE_MESSAGE

/-- src/src/lonk.rs lines 62-68, `progress_message`: the `MESSAGE_NDICOM` byte
followed by `ndicom.to_le_bytes()`. -/
def progress_message (ndicom : Nat) : List Nat := MESSAGE_NDICOM :: u32ToLeBytes ndicom

/-- src/src/lonk.rs lines 71-75, `error_message`: the `MESSAGE_ERROR` byte
prepended to the UTF-8 bytes of the error text (taken here as a byte list). -/
def error_message (e : List Nat) : List Nat := MESSAGE_ERROR :: e

/-- The progress decoder used by the repository's own integration-test
assertions (src/tests/util/assertions.rs lines 141-143): check the first byte
is `MESSAGE_NDICOM`, then `u32::from_le_bytes` of the next four bytes. -/
def decode_progress (payload : List Nat) : Option Nat :=
  match payload with
  | [b, p1, p2, p3, p4] =>
      if b = MESSAGE_NDICOM then some (p1 + 256 * p2 + 65536 * p3 + 16777216 * p4)
      else none
  | _ => none

/-- **C9.** A progress message is the byte `0x01` followed by the 4-byte
little-endian encoding of the count, and decoding recovers the count; an error
message is `0x02` followed by the error text bytes; done is the single byte
`0x00`. -/
theorem lonk_encoding_roundtrip (n : Nat) (h : n < 4294967296) :
    progress_message n =
      0x01 :: [n % 256, n / 256 % 256, n / 65536 % 256, n / 16777216 % 256] ∧
    decode_progress (progress_message n) = some n ∧
    (∀ e : List Nat, error_message e = 0x02 :: e) ∧
    done_message = [0x00] := by
  refine ⟨rfl, ?_, fun e => rfl, rfl⟩
  show (if (1 : Nat) = MESSAGE_NDICOM then
      some (n % 256 + 256 * (n / 256 % 256) + 65536 * (n / 65536 % 256)
        + 16777216 * (n / 16777216 % 256))
    else none) = some n
  rw [if_pos (show (1 : Nat) = MESSAGE_NDICOM from rfl)]
  congr 1
  omega

/-- Witness for `lonk_encoding_roundtrip` at `n = 305419896`. -/
theorem lonk_encoding_roundtrip_witness :
    305419896 < 4294967296 ∧
    (progress_message 305419896 =
      0x01 :: [305419896 % 256, 305419896 / 256 % 256,
               305419896 / 65536 % 256, 305419896 / 16777216 % 256] ∧
     decode_progress (progress_message 305419896) = some 305419896 ∧
     (∀ e : List Nat, error_message e = 0x02 :: e) ∧
     done_message = [0x00]) :=
  ⟨by decide, lonk_encoding_roundtrip 305419896 (by decide)⟩

/-! ## The celery registration task (src/src/types.rs, src/src/registration_task.rs,
src/src/celery_publisher.rs) -/

/-- Decimal digits, most significant first, with structural fuel (the fuel
`n + 1` always suffices since the argument shrinks by a factor of ten). -/
def natToDigitsCore : Nat → Nat → List Char
  | 0, _ => []
  | fuel + 1, n =>
      if n < 10 then [Char.ofNat (48 + n)]
      else natToDigitsCore fuel (n / 10) ++ [Char.ofNat (48 + n % 10)]

/-- Decimal digits of a natural number, most significant first. -/
def natToDigits (n : Nat) : List Char := natToDigitsCore (n + 1) n

/-- Zero-pad a rendering on the left to the given width (the `{:0>w}` and
date-component paddings of Rust's formatting machinery). -/
def padZeroes (w : Nat) (s : List Char) : List Char :=
  List.replicate (w - s.length) '0' ++ s

/-- `time::Date::format` with `format_description!("[year]-[month]-[day]")`
(src/src/types.rs lines 81-83): ISO "YYYY-MM-DD" with zero-padded components. -/
def formatDateISO (d : Date) : String :=
  ⟨padZeroes 4 (natToDigits d.year) ++ '-' :: padZeroes 2 (natToDigits d.month)
    ++ '-' :: padZeroes 2 (natToDigits d.day)⟩

/-- One positional argument of a celery task signature. -/
inductive CeleryArg where
  | str (s : String)
  | u32 (n : Nat)
  | optStr (s : Option String)
  | optI32 (n : Option Int)
deriving DecidableEq, Repr

/-- A celery task signature: the registered task name together with the
positional arguments, in order. -/
structure Signature where
  task_name : String
  args : List CeleryArg
deriving DecidableEq, Repr

/-- The task name from the `#[celery::task(name = ...)]` attribute in
src/src/registration_task.rs line 11. -/
def register_pacs_series_name : String := "pacsfiles.tasks.register_pacs_series"

/-- `register_pacs_series::new` with the 16 positional parameters that
`DicomInfo::into_task` passes (src/src/types.rs lines 79-98).  The
src/src/registration_task.rs in the snapshot is a stale 10-parameter stub that
could not accept this call; the parameter list here follows the call site in
types.rs, which is the revision wired into src/src/run_everything.rs. -/
def register_pacs_series.new (patient_id : String) (study_date : String)
    (study_instance_uid : String) (series_instance_uid : String) (pacs_name : AETitle)
    (path : String) (ndicom : Nat) (patient_name : Option String)
    (patient_birth_date : Option String) (patient_age : Option Int)
    (patient_sex : Option String) (accession_number : Option String)
    (modality : Option String) (protocol_name : Option String)
    (study_description : Option String) (series_description : Option String) : Signature :=
  { task_name := register_pacs_series_name
    args := [.str patient_id, .str study_date, .str study_instance_uid,
             .str series_instance_uid, .str pacs_name, .str path, .u32 ndicom,
             .optStr patient_name, .optStr patient_birth_date, .optI32 patient_age,
             .optStr patient_sex, .optStr accession_number, .optStr modality,
             .optStr protocol_name, .optStr study_description, .optStr series_description] }

/-- src/src/types.rs lines 76-100, `DicomInfo::into_task`. -/
def DicomInfo.into_task (self : DicomInfo) (ndicom : Nat) : Signature :=
  register_pacs_series.new self.PatientID (formatDateISO self.StudyDate)
    self.StudyInstanceUID self.SeriesInstanceUID self.pacs_name self.path ndicom
    self.PatientName self.PatientBirthDate self.PatientAge self.PatientSex
    self.AccessionNumber self.Modality self.ProtocolName self.StudyDescription
    self.SeriesDescription

/-- src/src/celery_publisher.rs lines 9-37, `celery_publisher`: submit one task
per `(series, ndicom)` parameter received; on a send error, log and return the
error, which ends the loop.  `send` models `client.send_task`; the first
component of the result lists the tasks handed to `send`, in order. -/
def celery_publisher (send : Signature → Except String Unit) :
    List (DicomInfo × Nat) → List Signature × Except String Unit
  | [] => ([], .ok ())
  | (series, ndicom) :: rest =>
      let task := series.into_task ndicom
      match send task with
      | .ok _ =>
          let t := celery_publisher send rest
          (task :: t.1, t.2)
      | .error e => ([task], .error e)

/-- **C7.** Each finished series is submitted as exactly one task named
`pacsfiles.tasks.register_pacs_series` whose positional arguments are, in
order: PatientID, StudyDate as ISO "YYYY-MM-DD", StudyInstanceUID,
SeriesInstanceUID, pacs_name, series directory path, instance count (u32),
then the optional PatientName, PatientBirthDate, PatientAge (i32 days),
PatientSex, AccessionNumber, Modality, ProtocolName, StudyDescription,
SeriesDescription.  The messenger emits exactly one registration parameter per
Finish, and the publisher sends exactly one task per parameter when the broker
accepts them. -/
theorem register_task_shape (info : DicomInfo) (ndicom : Nat) (counts : SeriesCounts)
    (k : SeriesKey) (params : List (DicomInfo × Nat))
    (send : Signature → Except String Unit) (hsend : ∀ t, send t = .ok ()) :
    (info.into_task ndicom).task_name = "pacsfiles.tasks.register_pacs_series" ∧
    (info.into_task ndicom).args =
      [.str info.PatientID, .str (formatDateISO info.StudyDate),
       .str info.StudyInstanceUID, .str info.SeriesInstanceUID,
       .str info.pacs_name, .str info.path, .u32 ndicom,
       .optStr info.PatientName, .optStr info.PatientBirthDate,
       .optI32 info.PatientAge, .optStr info.PatientSex,
       .optStr info.AccessionNumber, .optStr info.Modality,
       .optStr info.ProtocolName, .optStr info.StudyDescription,
       .optStr info.SeriesDescription] ∧
    formatDateISO ⟨2024, 4, 18⟩ = "2024-04-18" ∧
    (create_messages_for counts k (.finish info)).2.2 = some (info, (counts k).getD 0) ∧
    (celery_publisher send params).1 = params.map (fun p => p.1.into_task p.2) := by
  refine ⟨rfl, rfl, by decide, rfl, ?_⟩
  induction params with
  | nil => rfl
  | cons p rest ih =>
    obtain ⟨series, nd⟩ := p
    simp [celery_publisher, hsend, ih]

/-- Witness for `register_task_shape` on concrete data. -/
theorem register_task_shape_witness :
    (∀ t, (fun _ => Except.ok () : Signature → Except String Unit) t = .ok ()) ∧
    ((infoDemo.into_task 7).task_name = "pacsfiles.tasks.register_pacs_series" ∧
     (infoDemo.into_task 7).args =
       [.str infoDemo.PatientID, .str (formatDateISO infoDemo.StudyDate),
        .str infoDemo.StudyInstanceUID, .str infoDemo.SeriesInstanceUID,
        .str infoDemo.pacs_name, .str infoDemo.path, .u32 7,
        .optStr infoDemo.PatientName, .optStr infoDemo.PatientBirthDate,
        .optI32 infoDemo.PatientAge, .optStr infoDemo.PatientSex,
        .optStr infoDemo.AccessionNumber, .optStr infoDemo.Modality,
        .optStr infoDemo.ProtocolName, .optStr infoDemo.StudyDescription,
        .optStr infoDemo.SeriesDescription] ∧
     formatDateISO ⟨2024, 4, 18⟩ = "2024-04-18" ∧
     (create_messages_for (fun _ => none) kDemo (.finish infoDemo)).2.2 =
       some (infoDemo, ((fun _ => none : SeriesCounts) kDemo).getD 0) ∧
     (celery_publisher (fun _ => Except.ok ()) [(infoDemo, 7)]).1 =
       [(infoDemo, 7)].map (fun p => p.1.into_task p.2)) :=
  ⟨fun _ => rfl,
   register_task_shape infoDemo 7 (fun _ => none) kDemo [(infoDemo, 7)]
     (fun _ => Except.ok ()) (fun _ => rfl)⟩

/-! ## Storage-path sanitization (src/src/sanitize.rs, src/src/pacs_file.rs) -/

/-- The character class kept by the regex `[^A-Za-z0-9\.\-]+` of
src/src/sanitize.rs line 11: ASCII letters, ASCII digits, `.` and `-`. -/
def allowedChar (c : Char) : Bool :=
  (65 ≤ c.toNat && c.toNat ≤ 90) || (97 ≤ c.toNat && c.toNat ≤ 122) ||
  (48 ≤ c.toNat && c.toNat ≤ 57) || c == '.' || c == '-'

/-- `Regex::replace_all` with the greedy pattern `[^A-Za-z0-9\.\-]+` and
replacement `"_"`: each maximal (leftmost-greedy) run of disallowed characters
becomes one underscore.  Structural fuel; `l.length` fuel always suffices
because every step consumes at least one character. -/
def collapseRunsCore : Nat → List Char → List Char
  | 0, _ => []
  | _, [] => []
  | fuel + 1, c :: rest =>
      if allowedChar c then c :: collapseRunsCore fuel rest
      else '_' :: collapseRunsCore fuel (rest.dropWhile (fun d => !allowedChar d))

/-- The regex replacement pass of src/src/sanitize.rs. -/
def collapseRuns (l : List Char) : List Char := collapseRunsCore l.length l

/-- src/src/sanitize.rs lines 8-14, `sanitize`: remove NUL bytes
(`s.replace('\0', "")`), then replace every maximal run of characters outside
`[A-Za-z0-9.-]` by `_`.  (src/src/pacs_file.rs imports it under the name
`sanitize_path`; the function body is the one embedded here.) -/
def sanitize (s : String) : String :=
  ⟨collapseRuns (s.data.filter (fun c => c != Char.ofNat 0))⟩

/-- The sanitizer the claim describes (modelled from the claim's wording, for
refutation): one underscore per disallowed character, NUL removed. -/
def sanitizeClaimed (s : String) : String :=
  ⟨(s.data.filter (fun c => c != Char.ofNat 0)).map
    (fun c => if allowedChar c then c else '_')⟩

/-- **C8** (counterexample).  `sanitize` replaces a maximal run of disallowed
characters by a single underscore, not one underscore per character: on
`"a  b"` (two spaces) the code yields `"a_b"` while the claimed per-character
replacement yields `"a__b"`. -/
theorem sanitize_per_char_counterexample :
    sanitize "a  b" = "a_b" ∧
    sanitizeClaimed "a  b" = "a__b" ∧
    sanitize "a  b" ≠ sanitizeClaimed "a  b" := by
  refine ⟨rfl, rfl, by decide⟩

/-- Reference formulation of run collapsing, written independently of the
regex scan: keep allowed characters; for a disallowed character, emit an
underscore only when the output so far does not already start with one. -/
def collapseRunsSpec : List Char → List Char
  | [] => []
  | c :: rest =>
      if allowedChar c then c :: collapseRunsSpec rest
      else if (collapseRunsSpec rest).head? = some '_' then collapseRunsSpec rest
      else '_' :: collapseRunsSpec rest

theorem allowedChar_underscore : allowedChar '_' = false := by decide

/-- The underscore-merging step of `collapseRunsSpec` coincides with dropping
the rest of a disallowed run. -/
theorem collapseRunsSpec_bad (rest : List Char) :
    (if (collapseRunsSpec rest).head? = some '_' then collapseRunsSpec rest
     else '_' :: collapseRunsSpec rest) =
    '_' :: collapseRunsSpec (rest.dropWhile (fun d => !allowedChar d)) := by
  induction rest with
  | nil => simp [collapseRunsSpec]
  | cons d r ih =>
    by_cases hd : allowedChar d
    · have hne : ¬ (d = '_') := by
        intro he
        rw [he, allowedChar_underscore] at hd
        exact Bool.noConfusion hd
      have hcons : collapseRunsSpec (d :: r) = d :: collapseRunsSpec r := by
        simp [collapseRunsSpec, hd]
      have hhead : (collapseRunsSpec (d :: r)).head? = some d := by
        rw [hcons]; rfl
      rw [List.dropWhile_cons]
      rw [hhead, if_neg (by simp [hne])]
      rw [if_neg (by simp [hd])]
    · have hd' : allowedChar d = false := by simpa using hd
      have hspec : collapseRunsSpec (d :: r) =
          '_' :: collapseRunsSpec (r.dropWhile (fun x => !allowedChar x)) := by
        rw [show collapseRunsSpec (d :: r) =
          (if (collapseRunsSpec r).head? = some '_' then collapseRunsSpec r
           else '_' :: collapseRunsSpec r) by simp [collapseRunsSpec, hd]]
        exact ih
      rw [List.dropWhile_cons]
      rw [hspec]
      rw [if_pos (show ('_' ::
        collapseRunsSpec (List.dropWhile (fun x => !allowedChar x) r)).head? = some '_'
        from rfl)]
      rw [if_pos (by simp [hd'])]

/-- The fueled regex scan agrees with the reference formulation whenever the
fuel covers the input length. -/
theorem collapseRunsCore_eq_spec :
    ∀ (fuel : Nat) (l : List Char), l.length ≤ fuel →
      collapseRunsCore fuel l = collapseRunsSpec l := by
  intro fuel
  induction fuel with
  | zero =>
    intro l hl
    rw [List.length_eq_zero.mp (Nat.le_zero.mp hl)]
    rfl
  | succ fuel ih =>
    intro l hl
    cases l with
    | nil => rfl
    | cons c rest =>
      by_cases hc : allowedChar c
      · rw [show collapseRunsCore (fuel + 1) (c :: rest) =
          c :: collapseRunsCore fuel rest by simp [collapseRunsCore, hc]]
        rw [ih rest (by simpa using Nat.le_of_succ_le_succ hl)]
        simp [collapseRunsSpec, hc]
      · rw [show collapseRunsCore (fuel + 1) (c :: rest) =
          '_' :: collapseRunsCore fuel (rest.dropWhile (fun d => !allowedChar d)) by
            simp [collapseRunsCore, hc]]
        rw [ih _ (Nat.le_trans (List.Sublist.length_le (List.dropWhile_sublist _))
          (by simpa using Nat.le_of_succ_le_succ hl))]
        rw [show collapseRunsSpec (c :: rest) =
          (if (collapseRunsSpec rest).head? = some '_' then collapseRunsSpec rest
           else '_' :: collapseRunsSpec rest) by simp [collapseRunsSpec, hc]]
        exact (collapseRunsSpec_bad rest).symm

/-- `collapseRuns` agrees with the reference formulation. -/
theorem collapseRuns_eq_spec (l : List Char) : collapseRuns l = collapseRunsSpec l :=
  collapseRunsCore_eq_spec l.length l (Nat.le_refl _)

/-- Every character the reference collapse emits is allowed or an underscore. -/
theorem collapseRunsSpec_chars (l : List Char) :
    ∀ c ∈ collapseRunsSpec l, allowedChar c = true ∨ c = '_' := by
  induction l with
  | nil => intro c hc; exact absurd hc (List.not_mem_nil c)
  | cons d r ih =>
    intro c hc
    by_cases hd : allowedChar d
    · rw [show collapseRunsSpec (d :: r) = d :: collapseRunsSpec r by
        simp [collapseRunsSpec, hd]] at hc
      rcases List.mem_cons.mp hc with h | h
      · exact Or.inl (h ▸ hd)
      · exact ih c h
    · rw [show collapseRunsSpec (d :: r) =
        (if (collapseRunsSpec r).head? = some '_' then collapseRunsSpec r
         else '_' :: collapseRunsSpec r) by simp [collapseRunsSpec, hd]] at hc
      by_cases hh : (collapseRunsSpec r).head? = some '_'
      · rw [if_pos hh] at hc
        exact ih c hc
      · rw [if_neg hh] at hc
        rcases List.mem_cons.mp hc with h | h
        · exact Or.inr h
        · exact ih c h

/-- src/src/pacs_file.rs lines 164-178, `MaybeU32`: a `u32` when the tag value
parses, otherwise the raw string. -/
inductive MaybeU32 where
  | u32 (n : Nat)
  | str (s : String)
deriving DecidableEq, Repr

/-- `Display for MaybeU32` (src/src/pacs_file.rs lines 180-187). -/
def MaybeU32.display : MaybeU32 → List Char
  | .u32 n => natToDigits n
  | .str s => s.data

/-- The `{:0>w}` format applied to a `MaybeU32` in the path template. -/
def MaybeU32.render (m : MaybeU32) (w : Nat) : List Char :=
  padZeroes w m.display

/-- src/src/pacs_file.rs lines 103-122: the storage-path template.  Sanitized
components go through `sanitize`; `SeriesNumber` and `InstanceNumber` are
`MaybeU32` renderings (zero-padded, unsanitized) defaulting to their literal
placeholder names; the `SeriesInstanceUID` hash (hexadecimal SeaHash truncated
to 7 characters) is not embedded here and is taken as the `hash7` argument. -/
def buildPacsPath (pacs_name PatientID : String)
    (PatientName PatientBirthDate StudyDescription AccessionNumber : Option String)
    (StudyDate_string : String) (SeriesNumber : Option MaybeU32)
    (SeriesDescription : Option String) (hash7 : String)
    (InstanceNumber : Option MaybeU32) (SOPInstanceUID : String) : String :=
  ⟨"SERVICES/PACS/".data ++ (sanitize pacs_name).data ++ "/".data
    ++ (sanitize PatientID).data ++ "-".data
    ++ (sanitize (PatientName.getD "")).data ++ "-".data
    ++ (sanitize (PatientBirthDate.getD "")).data ++ "/".data
    ++ (sanitize (StudyDescription.getD "StudyDescription")).data ++ "-".data
    ++ (sanitize (AccessionNumber.getD "AccessionNumber")).data ++ "-".data
    ++ (sanitize StudyDate_string).data ++ "/".data
    ++ (SeriesNumber.getD (.str "SeriesNumber")).render 5 ++ "-".data
    ++ (sanitize (SeriesDescription.getD "SeriesDescription")).data ++ "-".data
    ++ hash7.data ++ "/".data
    ++ (InstanceNumber.getD (.str "InstanceNumber")).render 4 ++ "-".data
    ++ (sanitize SOPInstanceUID).data ++ ".dcm".data⟩

/-- The character class `[-A-Za-z0-9._/]` of the spec's path-safety property. -/
def pathChar (c : Char) : Bool := allowedChar c || c == '_' || c == '/'

theorem pathChar_of_allowed {c : Char} (h : allowedChar c = true) : pathChar c = true := by
  simp [pathChar, h]

theorem mem_lit_pathChar {l : List Char} {c : Char} (hc : c ∈ l)
    (hall : l.all pathChar = true) : pathChar c = true :=
  List.all_eq_true.mp hall c hc

theorem sanitize_chars (s : String) :
    ∀ c ∈ (sanitize s).data, allowedChar c = true ∨ c = '_' := by
  intro c hc
  rw [sanitize, collapseRuns_eq_spec] at hc
  exact collapseRunsSpec_chars _ c hc

theorem sanitize_pathChar (s : String) :
    ∀ c ∈ (sanitize s).data, pathChar c = true := by
  intro c hc
  rcases sanitize_chars s c hc with h | h
  · exact pathChar_of_allowed h
  · rw [h]; decide

theorem digit_allowed (k : Nat) (hk : k < 10) : allowedChar (Char.ofNat (48 + k)) = true := by
  interval_cases k <;> decide

theorem natToDigitsCore_chars :
    ∀ (fuel n : Nat), ∀ c ∈ natToDigitsCore fuel n, allowedChar c = true := by
  intro fuel
  induction fuel with
  | zero => intro n c hc; exact absurd hc (List.not_mem_nil c)
  | succ fuel ih =>
    intro n c hc
    by_cases hn : n < 10
    · rw [show natToDigitsCore (fuel + 1) n = [Char.ofNat (48 + n)] by
        simp [natToDigitsCore, hn]] at hc
      rw [List.mem_singleton.mp hc]
      exact digit_allowed n hn
    · rw [show natToDigitsCore (fuel + 1) n =
        natToDigitsCore fuel (n / 10) ++ [Char.ofNat (48 + n % 10)] by
          simp [natToDigitsCore, hn]] at hc
      rcases List.mem_append.mp hc with h | h
      · exact ih (n / 10) c h
      · rw [List.mem_singleton.mp h]
        exact digit_allowed (n % 10) (Nat.mod_lt n (by omega))

theorem render_pathChar (m : Option MaybeU32) (w : Nat) (ph : String)
    (hm : m = none ∨ ∃ n, m = some (.u32 n))
    (hph : ∀ c ∈ ph.data, allowedChar c = true) :
    ∀ c ∈ (m.getD (.str ph)).render w, pathChar c = true := by
  intro c hc
  rw [MaybeU32.render, padZeroes] at hc
  rcases List.mem_append.mp hc with h | h
  · rw [List.eq_of_mem_replicate h]
    decide
  · rcases hm with hm | ⟨n, hm⟩
    · subst hm
      exact pathChar_of_allowed (hph c h)
    · subst hm
      exact pathChar_of_allowed (natToDigitsCore_chars _ _ c h)

/-- **C8 (amended).**  `sanitize` first removes NUL characters, then replaces
each maximal run of consecutive characters outside `[A-Za-z0-9.-]` by a single
underscore (not one underscore per character); every character it emits is
allowed or `_`.  The derived storage path applies this sanitization to every
tag-derived text component; the `SeriesNumber` and `InstanceNumber` renderings
and the series hash are inserted without it, so whenever those numbers parse
(or are absent, giving their letter-only placeholders) and the hash is
hexadecimal, every character of the derived path lies in `[-A-Za-z0-9._/]`. -/
theorem sanitize_collapses_runs (s : String)
    (pacs_name PatientID : String)
    (PatientName PatientBirthDate StudyDescription AccessionNumber : Option String)
    (StudyDate_string : String) (SeriesNumber : Option MaybeU32)
    (SeriesDescription : Option String) (hash7 : String)
    (InstanceNumber : Option MaybeU32) (SOPInstanceUID : String)
    (hhash : ∀ c ∈ hash7.data, allowedChar c = true)
    (hsn : SeriesNumber = none ∨ ∃ n, SeriesNumber = some (.u32 n))
    (hin : InstanceNumber = none ∨ ∃ n, InstanceNumber = some (.u32 n)) :
    sanitize s = ⟨collapseRunsSpec (s.data.filter (fun c => c != Char.ofNat 0))⟩ ∧
    (∀ c ∈ (sanitize s).data, allowedChar c = true ∨ c = '_') ∧
    (∀ c ∈ (buildPacsPath pacs_name PatientID PatientName PatientBirthDate
        StudyDescription AccessionNumber StudyDate_string SeriesNumber
        SeriesDescription hash7 InstanceNumber SOPInstanceUID).data,
      pathChar c = true) := by
  refine ⟨by rw [sanitize, collapseRuns_eq_spec], sanitize_chars s, ?_⟩
  intro c hc
  rw [buildPacsPath] at hc
  simp only [List.append_assoc, List.mem_append] at hc
  rcases hc with h | h | h | h | h | h | h | h | h | h | h | h | h | h | h | h | h | h
    | h | h | h | h | h | h | h
  · exact mem_lit_pathChar h (by decide)
  · exact sanitize_pathChar _ c h
  · exact mem_lit_pathChar h (by decide)
  · exact sanitize_pathChar _ c h
  · exact mem_lit_pathChar h (by decide)
  · exact sanitize_pathChar _ c h
  · exact mem_lit_pathChar h (by decide)
  · exact sanitize_pathChar _ c h
  · exact mem_lit_pathChar h (by decide)
  · exact sanitize_pathChar _ c h
  · exact mem_lit_pathChar h (by decide)
  · exact sanitize_pathChar _ c h
  · exact mem_lit_pathChar h (by decide)
  · exact sanitize_pathChar _ c h
  · exact mem_lit_pathChar h (by decide)
  · exact render_pathChar _ _ _ hsn (by decide) c h
  · exact mem_lit_pathChar h (by decide)
  · exact sanitize_pathChar _ c h
  · exact mem_lit_pathChar h (by decide)
  · exact pathChar_of_allowed (hhash c h)
  · exact mem_lit_pathChar h (by decide)
  · exact render_pathChar _ _ _ hin (by decide) c h
  · exact mem_lit_pathChar h (by decide)
  · exact sanitize_pathChar _ c h
  · exact mem_lit_pathChar h (by decide)

/-- Witness for `sanitize_collapses_runs` on concrete data. -/
theorem sanitize_collapses_runs_witness :
    ((∀ c ∈ "0a1b2c3".data, allowedChar c = true) ∧
     (some (MaybeU32.u32 12) = none ∨ ∃ n, some (MaybeU32.u32 12) = some (MaybeU32.u32 n)) ∧
     ((none : Option MaybeU32) = none ∨ ∃ n, (none : Option MaybeU32) = some (.u32 n))) ∧
    (sanitize "x y" = ⟨collapseRunsSpec ("x y".data.filter (fun c => c != Char.ofNat 0))⟩ ∧
     (∀ c ∈ (sanitize "x y").data, allowedChar c = true ∨ c = '_') ∧
     (∀ c ∈ (buildPacsPath "MyPACS" "pid123" (some "Alice Bar") none none (some "AC 9")
         "20240418" (some (.u32 12)) (some "Brain Scan") "0a1b2c3" none "1.2.840.1").data,
       pathChar c = true)) :=
  ⟨⟨by decide, Or.inr ⟨12, rfl⟩, Or.inl rfl⟩,
   sanitize_collapses_runs "x y" "MyPACS" "pid123" (some "Alice Bar") none none (some "AC 9")
     "20240418" (some (.u32 12)) (some "Brain Scan") "0a1b2c3" none "1.2.840.1"
     (by decide) (Or.inr ⟨12, rfl⟩) (Or.inl rfl)⟩

/-! ## The per-subject rate limiter (src/src/limiter.rs) and the LONK
publisher loop (src/src/lonk_publisher.rs) -/

/-- src/src/limiter.rs lines 39-51, `SubjectState`: a one-permit semaphore
(modelled by a `busy` flag that is `true` while the permit is taken) and the
last-sent instant (instants modelled as `Int`). -/
structure SubjectState where
  busy : Bool
  last_sent : Int
deriving DecidableEq, Repr

/-- src/src/limiter.rs lines 54-58, `PureSubjectLimiter`: the per-subject
state map behind the mutex, the creation-time `start` instant (which is
`Instant::now() - interval` at construction, so the first lock is never "too
soon"), and the configured `interval`. -/
structure PureSubjectLimiter (S : Type) where
  subjects : S → Option SubjectState
  start : Int
  interval : Int

/-- src/src/limiter.rs `SubjectLimiter::new` at creation time 0. -/
def SubjectLimiter.new (interval : Int) : PureSubjectLimiter String :=
  { subjects := fun _ => none, start := 0 - interval, interval := interval }

/-- The two refusal reasons of the limiter (`LockError` in the publisher's
usage): `tooSoon` when the last send is within the interval, `busy` when a
publish for the subject is in flight. -/
inductive LockError where
  | tooSoon
  | busy
deriving DecidableEq, Repr

/-- src/src/limiter.rs lines 69-96, the decision part of
`PureSubjectLimiter::lock` at instant `now`: insert the default state for an
unseen subject; refuse with TooSoon when `now - last_sent < interval` (the
permit grabbed under the mutex is dropped again); refuse with Busy when the
permit is already taken; otherwise take the permit.  Returns the outcome and
the updated limiter. -/
def PureSubjectLimiter.lockTry {S : Type} [DecidableEq S] (lim : PureSubjectLimiter S)
    (now : Int) (subject : S) : Except LockError Unit × PureSubjectLimiter S :=
  let state := (lim.subjects subject).getD ⟨false, lim.start⟩
  if now - state.last_sent < lim.interval then
    (.error .tooSoon,
     { lim with subjects := fun s => if s = subject then some state else lim.subjects s })
  else if state.busy then
    (.error .busy,
     { lim with subjects := fun s => if s = subject then some state else lim.subjects s })
  else
    (.ok (),
     { lim with subjects := fun s =>
        if s = subject then some { state with busy := true } else lim.subjects s })

/-- src/src/limiter.rs lines 87-92: after the locked function completes, the
permit is released and the release instant `later` is recorded as `last_sent`
(when the subject still has state). -/
def PureSubjectLimiter.release {S : Type} [DecidableEq S] (lim : PureSubjectLimiter S)
    (later : Int) (subject : S) : PureSubjectLimiter S :=
  { lim with subjects := fun s =>
      if s = subject then
        match lim.subjects subject with
        | some st => some { st with busy := false, last_sent := later }
        | none => none
      else lim.subjects s }

/-- src/src/limiter.rs lines 98-125, `PureSubjectLimiter::forget`: wait until
the subject's in-flight permit (if any) is dropped, then remove the subject's
state.  In the sequential `lonk_publisher` loop every publish completes before
the next message is processed, so whenever `forget` runs the permit is free
and the waiting finishes immediately; the state change is the removal. -/
def PureSubjectLimiter.forget {S : Type} [DecidableEq S] (lim : PureSubjectLimiter S)
    (subject : S) : PureSubjectLimiter S :=
  { lim with subjects := fun s => if s = subject then none else lim.subjects s }

/-- src/src/lonk.rs lines 89-93, `sanitize_subject_part`: replace space, dot,
asterisk and greater-than by underscore, then drop NUL. -/
def sanitize_subject_part (name : String) : String :=
  ⟨(name.data.map
      (fun c => if c = ' ' ∨ c = '.' ∨ c = '*' ∨ c = '>' then '_' else c)).filter
    (fun c => c != Char.ofNat 0)⟩

/-- src/src/lonk.rs lines 80-87, `subject_of`: `"<root>.<pacs>.<series_uid>"`
with both variable parts sanitized. -/
def subject_of (root_subject : String) (series : SeriesKey) : String :=
  root_subject ++ "." ++ sanitize_subject_part series.pacs_name ++ "."
    ++ sanitize_subject_part series.SeriesInstanceUID

/-- src/src/lonk_publisher.rs lines 15-39, `lonk_publisher`, over the in-src
limiter of src/src/limiter.rs: process messages in channel order; a
last-priority message first forgets the subject's limiter state; required- and
last-priority messages are sent unconditionally; optional ones go through the
limiter and are dropped on TooSoon or Busy.  Each message carries the instant
`now` at which its lock is attempted and the instant `later` at which its
publish completes (the loop awaits each send, so publishes never overlap).
`send` models `client.publish`; a send error propagates via `?` and ends the
loop.  Returns the attempted publishes in order, the final limiter, and the
loop result. -/
def lonk_publisher (root_subject : String)
    (send : String → LonkMessage → Except String Unit) :
    PureSubjectLimiter String → List (PublishLonkParams × Int × Int) →
    List (String × LonkMessage) × PureSubjectLimiter String × Except String Unit
  | lim, [] => ([], lim, .ok ())
  | lim, (p, now, later) :: rest =>
      let subject := subject_of root_subject p.lonk.series
      match p.priority with
      | .optional =>
          match lim.lockTry now subject with
          | (.ok _, lim2) =>
              let r := send subject p.lonk.message
              let lim3 := lim2.release later subject
              match r with
              | .ok _ =>
                  let out := lonk_publisher root_subject send lim3 rest
                  ((subject, p.lonk.message) :: out.1, out.2)
              | .error e => ([(subject, p.lonk.message)], lim3, .error e)
          | (.error _, lim2) => lonk_publisher root_subject send lim2 rest
      | .required =>
          match send subject p.lonk.message with
          | .ok _ =>
              let out := lonk_publisher root_subject send lim rest
              ((subject, p.lonk.message) :: out.1, out.2)
          | .error e => ([(subject, p.lonk.message)], lim, .error e)
      | .last =>
          let lim1 := lim.forget subject
          match send subject p.lonk.message with
          | .ok _ =>
              let out := lonk_publisher root_subject send lim1 rest
              ((subject, p.lonk.message) :: out.1, out.2)
          | .error e => ([(subject, p.lonk.message)], lim1, .error e)

/-- Every publish the LONK publisher attempts comes from some input message
(same subject, same payload). -/
theorem lonk_publisher_mem (root : String) (send : String → LonkMessage → Except String Unit) :
    ∀ (input : List (PublishLonkParams × Int × Int)) (lim : PureSubjectLimiter String)
      (x : String × LonkMessage), x ∈ (lonk_publisher root send lim input).1 →
      ∃ q ∈ input, x = (subject_of root q.1.lonk.series, q.1.lonk.message) := by
  intro input
  induction input with
  | nil => intro lim x hx; exact absurd hx (List.not_mem_nil x)
  | cons e rest ih =>
    intro lim x hx
    obtain ⟨p, now, later⟩ := e
    cases hp : p.priority with
    | optional =>
      rcases hl : lim.lockTry now (subject_of root p.lonk.series) with ⟨res, lim2⟩
      cases res with
      | ok u =>
        cases hs : send (subject_of root p.lonk.series) p.lonk.message with
        | ok v =>
          simp only [lonk_publisher, hp, hl, hs] at hx
          rcases List.mem_cons.mp hx with h | h
          · exact ⟨(p, now, later), List.mem_cons_self _ _, h⟩
          · obtain ⟨q, hq, hxq⟩ := ih _ x h
            exact ⟨q, List.mem_cons_of_mem _ hq, hxq⟩
        | error err =>
          simp only [lonk_publisher, hp, hl, hs] at hx
          rcases List.mem_singleton.mp hx with h
          exact ⟨(p, now, later), List.mem_cons_self _ _, h⟩
      | error err =>
        simp only [lonk_publisher, hp, hl] at hx
        obtain ⟨q, hq, hxq⟩ := ih _ x hx
        exact ⟨q, List.mem_cons_of_mem _ hq, hxq⟩
    | required =>
      cases hs : send (subject_of root p.lonk.series) p.lonk.message with
      | ok v =>
        simp only [lonk_publisher, hp, hs] at hx
        rcases List.mem_cons.mp hx with h | h
        · exact ⟨(p, now, later), List.mem_cons_self _ _, h⟩
        · obtain ⟨q, hq, hxq⟩ := ih _ x h
          exact ⟨q, List.mem_cons_of_mem _ hq, hxq⟩
      | error err =>
        simp only [lonk_publisher, hp, hs] at hx
        rcases List.mem_singleton.mp hx with h
        exact ⟨(p, now, later), List.mem_cons_self _ _, h⟩
    | last =>
      cases hs : send (subject_of root p.lonk.series) p.lonk.message with
      | ok v =>
        simp only [lonk_publisher, hp, hs] at hx
        rcases List.mem_cons.mp hx with h | h
        · exact ⟨(p, now, later), List.mem_cons_self _ _, h⟩
        · obtain ⟨q, hq, hxq⟩ := ih _ x h
          exact ⟨q, List.mem_cons_of_mem _ hq, hxq⟩
      | error err =>
        simp only [lonk_publisher, hp, hs] at hx
        rcases List.mem_singleton.mp hx with h
        exact ⟨(p, now, later), List.mem_cons_self _ _, h⟩

theorem getLast?_cons_of_ne_nil {α : Type} (x : α) {l : List α} (h : l ≠ []) :
    (x :: l).getLast? = l.getLast? := by
  cases l with
  | nil => exact absurd rfl h
  | cons a t => exact List.getLast?_cons_cons

/-- When the input ends (for its subject) with a last-priority message, the
attempted publishes for that subject end with that message. -/
theorem lonk_publisher_filter_last (root : String)
    (send : String → LonkMessage → Except String Unit)
    (hsend : ∀ s m, send s m = Except.ok ())
    (q : PublishLonkParams) (tq tq' : Int) (hq : q.priority = .last) :
    ∀ (pre post : List (PublishLonkParams × Int × Int)) (lim : PureSubjectLimiter String),
      (∀ x ∈ post, subject_of root x.1.lonk.series ≠ subject_of root q.lonk.series) →
      ((lonk_publisher root send lim (pre ++ (q, tq, tq') :: post)).1.filter
          (fun x => x.1 == subject_of root q.lonk.series)).getLast? =
        some (subject_of root q.lonk.series, q.lonk.message) := by
  intro pre
  induction pre with
  | nil =>
    intro post lim hpost
    simp only [List.nil_append, lonk_publisher, hq, hsend]
    have hrest : ((lonk_publisher root send
        (lim.forget (subject_of root q.lonk.series)) post).1.filter
          (fun x => x.1 == subject_of root q.lonk.series)) = [] := by
      rw [List.filter_eq_nil_iff]
      intro x hx
      obtain ⟨r, hr, hxr⟩ := lonk_publisher_mem root send post _ x hx
      rw [hxr]
      simpa using hpost r hr
    rw [List.filter_cons]
    simp only [beq_self_eq_true, if_pos]
    rw [hrest]
    rfl
  | cons e pre' ih =>
    intro post lim hpost
    obtain ⟨p, now, later⟩ := e
    have htail : ∀ (lim' : PureSubjectLimiter String),
        ((lonk_publisher root send lim' (pre' ++ (q, tq, tq') :: post)).1.filter
          (fun x => x.1 == subject_of root q.lonk.series)).getLast? =
        some (subject_of root q.lonk.series, q.lonk.message) := fun lim' => ih post lim' hpost
    have hcons : ∀ (y : String × LonkMessage) (l : List (String × LonkMessage)),
        (l.filter (fun x => x.1 == subject_of root q.lonk.series)).getLast? =
          some (subject_of root q.lonk.series, q.lonk.message) →
        ((y :: l).filter (fun x => x.1 == subject_of root q.lonk.series)).getLast? =
          some (subject_of root q.lonk.series, q.lonk.message) := by
      intro y l hl
      rw [List.filter_cons]
      by_cases hy : (y.1 == subject_of root q.lonk.series) = true
      · rw [if_pos hy]
        refine (getLast?_cons_of_ne_nil y ?_).trans hl
        intro hnil
        rw [hnil] at hl
        exact Option.noConfusion hl
      · rw [if_neg hy]
        exact hl
    cases hp : p.priority with
    | optional =>
      rcases hl : lim.lockTry now (subject_of root p.lonk.series) with ⟨res, lim2⟩
      cases res with
      | ok u =>
        simp only [List.cons_append, lonk_publisher, hp, hl, hsend]
        exact hcons _ _ (htail _)
      | error err =>
        simp only [List.cons_append, lonk_publisher, hp, hl]
        exact htail _
    | required =>
      simp only [List.cons_append, lonk_publisher, hp, hsend]
      exact hcons _ _ (htail _)
    | last =>
      simp only [List.cons_append, lonk_publisher, hp, hsend]
      exact hcons _ _ (htail _)

/-- **C6.**  The publisher drops an optional-priority message exactly when the
subject's limiter refuses: a publish for the subject is in flight (`busy`) or
the last recorded send is within the configured interval (`tooSoon`);
required- and last-priority messages are always published; a last-priority
message first forgets the subject's limiter state (the forget waits for the
in-flight publish, which in this sequential loop has already completed), so
when a subject's messages end with its last-priority done message, the
publishes for that subject end with the done message — it follows every prior
progress or error publish for the subject. -/
theorem lonk_publisher_rate_limit
    (root : String) (send : String → LonkMessage → Except String Unit)
    (hsend : ∀ s m, send s m = Except.ok ())
    (lim : PureSubjectLimiter String) (now later : Int) (s : String)
    (p : PublishLonkParams) (rest : List (PublishLonkParams × Int × Int))
    (pre post : List (PublishLonkParams × Int × Int))
    (q : PublishLonkParams) (tq tq' : Int) (hq : q.priority = .last)
    (hpost : ∀ x ∈ post, subject_of root x.1.lonk.series ≠ subject_of root q.lonk.series) :
    (((lim.lockTry now s).1 ≠ Except.ok ()) ↔
      (((lim.subjects s).getD ⟨false, lim.start⟩).busy = true ∨
       now - ((lim.subjects s).getD ⟨false, lim.start⟩).last_sent < lim.interval)) ∧
    ((p.priority = .required ∨ p.priority = .last) →
      (lonk_publisher root send lim ((p, now, later) :: rest)).1.head? =
        some (subject_of root p.lonk.series, p.lonk.message)) ∧
    (p.priority = .optional →
      (lim.lockTry now (subject_of root p.lonk.series)).1 = .ok () →
      (lonk_publisher root send lim ((p, now, later) :: rest)).1.head? =
        some (subject_of root p.lonk.series, p.lonk.message)) ∧
    (p.priority = .optional →
      (lim.lockTry now (subject_of root p.lonk.series)).1 ≠ .ok () →
      (lonk_publisher root send lim ((p, now, later) :: rest)).1 =
        (lonk_publisher root send
          (lim.lockTry now (subject_of root p.lonk.series)).2 rest).1) ∧
    ((lim.forget s).subjects s = none) ∧
    (((lonk_publisher root send lim (pre ++ (q, tq, tq') :: post)).1.filter
        (fun x => x.1 == subject_of root q.lonk.series)).getLast? =
      some (subject_of root q.lonk.series, q.lonk.message)) := by
  refine ⟨?_, ?_, ?_, ?_, ?_, lonk_publisher_filter_last root send hsend q tq tq' hq pre post lim hpost⟩
  · simp only [PureSubjectLimiter.lockTry]
    split_ifs with h1 h2 <;> simp_all
  · intro hp
    rcases hp with hp | hp <;> simp [lonk_publisher, hp, hsend]
  · intro hp hlock
    rcases hl : lim.lockTry now (subject_of root p.lonk.series) with ⟨res, lim2⟩
    rw [hl] at hlock
    simp only at hlock
    subst hlock
    simp [lonk_publisher, hp, hl, hsend]
  · intro hp hlock
    rcases hl : lim.lockTry now (subject_of root p.lonk.series) with ⟨res, lim2⟩
    rw [hl] at hlock
    simp only at hlock
    cases res with
    | ok u => exact absurd rfl hlock
    | error err => simp [lonk_publisher, hp, hl]
  · simp [PureSubjectLimiter.forget]

/-- A send function that always succeeds, for the C6 witness. -/
def demoSendOk : String → LonkMessage → Except String Unit := fun _ _ => .ok ()

/-- A fresh limiter with interval 100, for the C6 witness. -/
def demoLim : PureSubjectLimiter String := SubjectLimiter.new 100

/-- An optional-priority progress message, for the C6 witness. -/
def demoOpt : PublishLonkParams := PublishLonkParams.optional (Lonk.ndicom kDemo 2)

/-- A last-priority done message, for the C6 witness. -/
def demoLast : PublishLonkParams := PublishLonkParams.last (Lonk.done kDemo)

/-- A required-priority prefix message list, for the C6 witness. -/
def demoMsgs : List (PublishLonkParams × Int × Int) :=
  [(PublishLonkParams.required (Lonk.ndicom kDemo 1), 0, 1)]

/-- Witness for `lonk_publisher_rate_limit` on concrete data. -/
theorem lonk_publisher_rate_limit_witness :
    ((∀ s m, demoSendOk s m = Except.ok ()) ∧
     demoLast.priority = .last ∧
     (∀ x ∈ ([] : List (PublishLonkParams × Int × Int)),
        subject_of "oxidicom" x.1.lonk.series ≠ subject_of "oxidicom" demoLast.lonk.series)) ∧
    ((((demoLim.lockTry 0 "subj").1 ≠ Except.ok ()) ↔
        (((demoLim.subjects "subj").getD ⟨false, demoLim.start⟩).busy = true ∨
         0 - ((demoLim.subjects "subj").getD ⟨false, demoLim.start⟩).last_sent <
           demoLim.interval)) ∧
     ((demoOpt.priority = .required ∨ demoOpt.priority = .last) →
       (lonk_publisher "oxidicom" demoSendOk demoLim ((demoOpt, 0, 1) :: [])).1.head? =
         some (subject_of "oxidicom" demoOpt.lonk.series, demoOpt.lonk.message)) ∧
     (demoOpt.priority = .optional →
       (demoLim.lockTry 0 (subject_of "oxidicom" demoOpt.lonk.series)).1 = .ok () →
       (lonk_publisher "oxidicom" demoSendOk demoLim ((demoOpt, 0, 1) :: [])).1.head? =
         some (subject_of "oxidicom" demoOpt.lonk.series, demoOpt.lonk.message)) ∧
     (demoOpt.priority = .optional →
       (demoLim.lockTry 0 (subject_of "oxidicom" demoOpt.lonk.series)).1 ≠ .ok () →
       (lonk_publisher "oxidicom" demoSendOk demoLim ((demoOpt, 0, 1) :: [])).1 =
         (lonk_publisher "oxidicom" demoSendOk
           (demoLim.lockTry 0 (subject_of "oxidicom" demoOpt.lonk.series)).2 []).1) ∧
     ((demoLim.forget "subj").subjects "subj" = none) ∧
     (((lonk_publisher "oxidicom" demoSendOk demoLim
          (demoMsgs ++ (demoLast, 2, 3) :: [])).1.filter
         (fun x => x.1 == subject_of "oxidicom" demoLast.lonk.series)).getLast? =
       some (subject_of "oxidicom" demoLast.lonk.series, demoLast.lonk.message))) :=
  ⟨⟨fun _ _ => rfl, rfl, by simp⟩,
   lonk_publisher_rate_limit "oxidicom" demoSendOk (fun _ _ => rfl) demoLim 0 1 "subj"
     demoOpt [] demoMsgs [] demoLast 2 3 rfl (by simp)⟩

/-! ## Bus-failure behaviour (src/src/celery_publisher.rs, src/src/lonk_publisher.rs) -/

/-- A celery send that always fails, for the C10 counterexample. -/
def demoSendFail : Signature → Except String Unit := fun _ => .error "broker down"

/-- A NATS send that always fails, for the C10 counterexample. -/
def demoLonkSendFail : String → LonkMessage → Except String Unit :=
  fun _ _ => .error "nats down"

/-- **C10** (counterexample).  A failing publish does not let the pipeline
proceed: with two registration parameters and a broker that rejects every
task, `celery_publisher` logs and returns the error after the first send
(src/src/celery_publisher.rs line 32 `return Err(e)`), never consuming the
second; likewise `lonk_publisher` propagates the first NATS publish error via
`?` (src/src/lonk_publisher.rs line 29) and stops. -/
theorem publisher_stops_on_error_counterexample :
    (celery_publisher demoSendFail [(infoDemo, 1), (infoDemo, 2)]).2 =
      .error "broker down" ∧
    (celery_publisher demoSendFail [(infoDemo, 1), (infoDemo, 2)]).1.length = 1 ∧
    (lonk_publisher "r" demoLonkSendFail demoLim
      [(PublishLonkParams.required (Lonk.ndicom kDemo 1), 0, 1),
       (PublishLonkParams.required (Lonk.ndicom kDemo 2), 2, 3)]).2.2 =
      .error "nats down" ∧
    (lonk_publisher "r" demoLonkSendFail demoLim
      [(PublishLonkParams.required (Lonk.ndicom kDemo 1), 0, 1),
       (PublishLonkParams.required (Lonk.ndicom kDemo 2), 2, 3)]).1.length = 1 :=
  ⟨rfl, rfl, rfl, rfl⟩

/-- **C10 (amended).**  When an AMQP publish fails, `celery_publisher` logs
the failure and terminates, returning the error: the tasks attempted are
exactly those up to and including the failing one, and subsequent parameters
are not consumed.  When a NATS publish of a required-priority message fails,
`lonk_publisher` propagates the error and stops likewise.  (The stage
terminates with an error rather than proceeding; run_everything then tears
the pipeline down.) -/
theorem publishers_halt_on_error
    (send : Signature → Except String Unit) (e : String)
    (root : String) (sendL : String → LonkMessage → Except String Unit)
    (p : PublishLonkParams) (now later : Int)
    (rest : List (PublishLonkParams × Int × Int))
    (hp : p.priority = .required)
    (hpe : sendL (subject_of root p.lonk.series) p.lonk.message = .error e) :
    (∀ (pre : List (DicomInfo × Nat)) (x : DicomInfo × Nat) (post : List (DicomInfo × Nat)),
      (∀ y ∈ pre, send (y.1.into_task y.2) = .ok ()) →
      send (x.1.into_task x.2) = .error e →
      (celery_publisher send (pre ++ x :: post)).2 = .error e ∧
      (celery_publisher send (pre ++ x :: post)).1 =
        pre.map (fun y => y.1.into_task y.2) ++ [x.1.into_task x.2]) ∧
    lonk_publisher root sendL demoLim ((p, now, later) :: rest) =
      ([(subject_of root p.lonk.series, p.lonk.message)], demoLim, .error e) := by
  constructor
  · intro pre
    induction pre with
    | nil =>
      intro x post _ hx
      obtain ⟨series, nd⟩ := x
      simp [celery_publisher, hx]
    | cons y pre' ih =>
      intro x post hpre hx
      obtain ⟨series, nd⟩ := y
      have hy : send (DicomInfo.into_task series nd) = .ok () :=
        hpre (series, nd) (List.mem_cons_self _ _)
      have := ih x post (fun z hz => hpre z (List.mem_cons_of_mem _ hz)) hx
      simp [celery_publisher, hy, this.1, this.2]
  · simp [lonk_publisher, hp, hpe]

/-- Witness for `publishers_halt_on_error` on concrete data. -/
theorem publishers_halt_on_error_witness :
    ((PublishLonkParams.required (Lonk.ndicom kDemo 1)).priority = .required ∧
     demoLonkSendFail
       (subject_of "r" (PublishLonkParams.required (Lonk.ndicom kDemo 1)).lonk.series)
       (PublishLonkParams.required (Lonk.ndicom kDemo 1)).lonk.message =
         .error "nats down") ∧
    ((∀ (pre : List (DicomInfo × Nat)) (x : DicomInfo × Nat) (post : List (DicomInfo × Nat)),
       (∀ y ∈ pre, demoSendFail (y.1.into_task y.2) = .ok ()) →
       demoSendFail (x.1.into_task x.2) = .error "nats down" →
       (celery_publisher demoSendFail (pre ++ x :: post)).2 = .error "nats down" ∧
       (celery_publisher demoSendFail (pre ++ x :: post)).1 =
         pre.map (fun y => y.1.into_task y.2) ++ [x.1.into_task x.2]) ∧
     lonk_publisher "r" demoLonkSendFail demoLim
       ((PublishLonkParams.required (Lonk.ndicom kDemo 1), 0, 1) :: []) =
       ([(subject_of "r" (PublishLonkParams.required (Lonk.ndicom kDemo 1)).lonk.series,
          (PublishLonkParams.required (Lonk.ndicom kDemo 1)).lonk.message)],
        demoLim, .error "nats down")) :=
  ⟨⟨rfl, rfl⟩,
   publishers_halt_on_error demoSendFail "nats down" "r" demoLonkSendFail
     (PublishLonkParams.required (Lonk.ndicom kDemo 1)) 0 1 [] rfl rfl⟩

/-! ## Required-tag validation (src/src/pacs_file.rs, src/src/error.rs) and
instance rejection -/

/-- The DICOM tags `PacsFileRegistrationRequest::new` reads. -/
inductive Tag where
  | StudyInstanceUID
  | SeriesInstanceUID
  | SOPInstanceUID
  | PatientID
  | StudyDate
  | PatientName
  | PatientBirthDate
  | StudyDescription
  | AccessionNumber
  | SeriesDescription
  | InstanceNumber
  | SeriesNumber
  | PatientAge
  | PatientSex
  | Modality
  | ProtocolName
deriving DecidableEq, Repr

/-- A received DICOM object, modelled as the partial map from tags to their
trimmed string values (the `tt` helper of src/src/pacs_file.rs lines 157-161:
`element(tag).string().trim()`). -/
def DicomObject := Tag → Option String

/-- Removal of NUL characters (`s.replace('\0', "")`). -/
def removeNulStr (s : String) : String := ⟨s.data.filter (fun c => c != Char.ofNat 0)⟩

/-- src/src/pacs_file.rs lines 150-153, `tts`: optional string tag with NUL
bytes removed. -/
def tts (dcm : DicomObject) (tag : Tag) : Option String := (dcm tag).map removeNulStr

/-- src/src/error.rs lines 35-40, `RequiredTagError`. -/
inductive RequiredTagError where
  | missing (tag : Tag)
  | bad (tag : Tag) (value : Option String)
deriving DecidableEq, Repr

/-- src/src/pacs_file.rs lines 145-148, `ttr`: required string tag. -/
def ttr (dcm : DicomObject) (tag : Tag) : Except RequiredTagError String :=
  match tts dcm tag with
  | some s => .ok s
  | none => .error (.missing tag)

/-- Gregorian leap year, as validated by `time::Date`. -/
def isLeap (y : Nat) : Bool := (y % 4 = 0 && y % 100 != 0) || y % 400 = 0

/-- Days in a month, as validated by `time::Date`. -/
def daysInMonth (y m : Nat) : Nat :=
  if m = 2 then (if isLeap y then 29 else 28)
  else if m = 4 ∨ m = 6 ∨ m = 9 ∨ m = 11 then 30
  else 31

/-- The numeric value of an ASCII digit. -/
def digitVal (c : Char) : Option Nat :=
  if 48 ≤ c.toNat ∧ c.toNat ≤ 57 then some (c.toNat - 48) else none

/-- `time::Date::parse` with `format_description!("[year][month][day]")`
(src/src/pacs_file.rs lines 70-76): exactly eight ASCII digits — a 4-digit
year, 2-digit month, 2-digit day — forming a valid calendar date. -/
def parseDA (s : String) : Option Date :=
  match s.data with
  | [y1, y2, y3, y4, m1, m2, d1, d2] => do
      let a ← digitVal y1
      let b ← digitVal y2
      let c ← digitVal y3
      let d ← digitVal y4
      let e ← digitVal m1
      let f ← digitVal m2
      let g ← digitVal d1
      let h ← digitVal d2
      let y := a * 1000 + b * 100 + c * 10 + d
      let m := e * 10 + f
      let dd := g * 10 + h
      if 1 ≤ m ∧ m ≤ 12 ∧ 1 ≤ dd ∧ dd ≤ daysInMonth y m then some ⟨y, m, dd⟩ else none
  | _ => none

/-- `MaybeU32::from(&str)` (src/src/pacs_file.rs lines 171-178): a `u32` when
the string parses as one (digits only, below `2^32`), otherwise the raw
string. -/
def maybeU32OfStr (s : String) : MaybeU32 :=
  match s.toNat? with
  | some n => if n < 4294967296 then .u32 n else .str s
  | none => .str s

/-- src/src/pacs_file.rs lines 58-142, `PacsFileRegistrationRequest::new`: the
five required tags are extracted first (`?` on `ttr`), then StudyDate must
parse as DICOM DA; on success the optional tags and the derived storage path
are assembled (the request record shares its field list with `DicomInfo`;
`SOPInstanceUID` only enters the path).  `parse_age` abstracts
src/src/patient_age.rs (`f32` arithmetic, kept opaque); `hash7` abstracts the
7-character hexadecimal SeaHash of the SeriesInstanceUID.  Bad-tag warnings
(the `bad_tags` vector) carry no information the claims need and are not
modelled. -/
def PacsFileRegistrationRequest.new (parse_age : String → Option Int)
    (pacs_name : String) (dcm : DicomObject) (hash7 : String) :
    Except RequiredTagError DicomInfo := do
  let StudyInstanceUID ← ttr dcm .StudyInstanceUID
  let SeriesInstanceUID ← ttr dcm .SeriesInstanceUID
  let SOPInstanceUID ← ttr dcm .SOPInstanceUID
  let PatientID ← ttr dcm .PatientID
  let StudyDate_string ← ttr dcm .StudyDate
  let StudyDate ← match parseDA StudyDate_string with
    | some d => Except.ok d
    | none => Except.error (.bad .StudyDate (some StudyDate_string))
  let PatientName := tts dcm .PatientName
  let PatientBirthDate := tts dcm .PatientBirthDate
  let StudyDescription := tts dcm .StudyDescription
  let AccessionNumber := tts dcm .AccessionNumber
  let SeriesDescription := tts dcm .SeriesDescription
  let InstanceNumber := (dcm .InstanceNumber).map maybeU32OfStr
  let SeriesNumber := (dcm .SeriesNumber).map maybeU32OfStr
  let PatientAge := (dcm .PatientAge).bind parse_age
  Except.ok
    { PatientID := PatientID
      StudyDate := StudyDate
      StudyInstanceUID := StudyInstanceUID
      SeriesInstanceUID := SeriesInstanceUID
      pacs_name := pacs_name
      path := buildPacsPath pacs_name PatientID PatientName PatientBirthDate
        StudyDescription AccessionNumber StudyDate_string SeriesNumber
        SeriesDescription hash7 InstanceNumber SOPInstanceUID
      PatientName := PatientName
      PatientBirthDate := PatientBirthDate
      PatientAge := PatientAge
      PatientSex := tts dcm .PatientSex
      AccessionNumber := AccessionNumber
      Modality := tts dcm .Modality
      ProtocolName := tts dcm .ProtocolName
      StudyDescription := StudyDescription
      SeriesDescription := SeriesDescription }

/-- `RequiredTagError` display text (src/src/error.rs lines 35-40). -/
def RequiredTagError.text : RequiredTagError → String
  | .missing _ => "DICOM file does not have the required tag"
  | .bad _ _ => "Illegal value for tag"

/-- Modelled from the spec: the DicomInstance arm of `match_event` in the
4-argument `association_series_state_loop` that src/src/run_everything.rs
line 87 calls, which is absent from the snapshot (the in-src
association_series_state_loop.rs is an older 3-argument revision without the
LONK channel).  Spec §4.4: on a required-tag failure "produce an error
notification addressed to the series (best-effort SeriesKey reconstruction
from whatever tags are present, defaulting the UID to UNKNOWN) and do not
propagate a storage task"; otherwise schedule the storage write and emit
`(SeriesKey, Instance(task-handle))`.  The result triple lists the storage
tasks spawned, the series events propagated downstream, and the error
notifications sent. -/
def handle_dicom_instance (parse_age : String → Option Int) (pacs_name : String)
    (dcm : DicomObject) (hash7 : String) :
    List DicomInfo × List (SeriesKey × SeriesEvent DicomInfo DicomInfo)
      × List PublishLonkParams :=
  match PacsFileRegistrationRequest.new parse_age pacs_name dcm hash7 with
  | .ok info =>
      ([info], [(SeriesKey.new info.SeriesInstanceUID info.pacs_name, .inst info)], [])
  | .error e =>
      ([], [],
       [PublishLonkParams.required
         (Lonk.error (SeriesKey.new ((dcm .SeriesInstanceUID).getD "UNKNOWN") pacs_name)
           e.text)])

theorem tts_none (dcm : DicomObject) (tag : Tag) : tts dcm tag = none ↔ dcm tag = none := by
  rw [tts, Option.map_eq_none']

theorem except_bind_error {ε α β : Type} (e : ε) (f : α → Except ε β) :
    (Except.error e >>= f) = Except.error e := rfl

theorem except_bind_ok {ε α β : Type} (a : α) (f : α → Except ε β) :
    (Except.ok a >>= f) = f a := rfl

/-- A successful `PacsFileRegistrationRequest::new` needs all five required
tags present and a StudyDate that parses as DICOM DA. -/
theorem new_ok_implies (parse_age : String → Option Int) (pacs_name : String)
    (dcm : DicomObject) (hash7 : String) (info : DicomInfo)
    (hok : PacsFileRegistrationRequest.new parse_age pacs_name dcm hash7 = .ok info) :
    tts dcm .StudyInstanceUID ≠ none ∧ tts dcm .SeriesInstanceUID ≠ none ∧
    tts dcm .SOPInstanceUID ≠ none ∧ tts dcm .PatientID ≠ none ∧
    tts dcm .StudyDate ≠ none ∧
    (∀ s, tts dcm .StudyDate = some s → parseDA s ≠ none) := by
  cases h1 : tts dcm .StudyInstanceUID with
  | none => simp [PacsFileRegistrationRequest.new, ttr, except_bind_error, except_bind_ok, h1] at hok
  | some s1 =>
  cases h2 : tts dcm .SeriesInstanceUID with
  | none => simp [PacsFileRegistrationRequest.new, ttr, except_bind_error, except_bind_ok, h1, h2] at hok
  | some s2 =>
  cases h3 : tts dcm .SOPInstanceUID with
  | none => simp [PacsFileRegistrationRequest.new, ttr, except_bind_error, except_bind_ok, h1, h2, h3] at hok
  | some s3 =>
  cases h4 : tts dcm .PatientID with
  | none => simp [PacsFileRegistrationRequest.new, ttr, except_bind_error, except_bind_ok, h1, h2, h3, h4] at hok
  | some s4 =>
  cases h5 : tts dcm .StudyDate with
  | none => simp [PacsFileRegistrationRequest.new, ttr, except_bind_error, except_bind_ok, h1, h2, h3, h4, h5] at hok
  | some s5 =>
  cases h6 : parseDA s5 with
  | none => simp [PacsFileRegistrationRequest.new, ttr, except_bind_error, except_bind_ok, h1, h2, h3, h4, h5, h6] at hok
  | some d =>
    refine ⟨by simp [h1], by simp [h2], by simp [h3], by simp [h4], by simp [h5], ?_⟩
    intro s hs
    have hss : s = s5 := (Option.some_inj.mp hs).symm
    rw [hss, h6]
    simp

/-- **C5.**  A DICOM object missing any of the required tags
{StudyInstanceUID, SeriesInstanceUID, SOPInstanceUID, PatientID, StudyDate},
or whose StudyDate does not parse as DICOM DA, is rejected totally: no storage
task is spawned (so no file is written), nothing is propagated downstream (so
no registration task is ever submitted for the instance), and exactly one
required-priority error notification is produced for the best-effort series
key (UID defaulting to "UNKNOWN"). -/
theorem required_tag_rejection (parse_age : String → Option Int) (pacs_name : String)
    (dcm : DicomObject) (hash7 : String)
    (h : dcm .StudyInstanceUID = none ∨ dcm .SeriesInstanceUID = none ∨
         dcm .SOPInstanceUID = none ∨ dcm .PatientID = none ∨ dcm .StudyDate = none ∨
         (∃ s, dcm .StudyDate = some s ∧ parseDA (removeNulStr s) = none)) :
    (handle_dicom_instance parse_age pacs_name dcm hash7).1 = [] ∧
    (handle_dicom_instance parse_age pacs_name dcm hash7).2.1 = [] ∧
    (handle_dicom_instance parse_age pacs_name dcm hash7).2.2.length = 1 ∧
    ∃ e : RequiredTagError,
      (handle_dicom_instance parse_age pacs_name dcm hash7).2.2 =
        [PublishLonkParams.required
          (Lonk.error (SeriesKey.new ((dcm .SeriesInstanceUID).getD "UNKNOWN") pacs_name)
            e.text)] := by
  have hrej : ∀ info : DicomInfo,
      PacsFileRegistrationRequest.new parse_age pacs_name dcm hash7 ≠ .ok info := by
    intro info hok
    obtain ⟨m1, m2, m3, m4, m5, m6⟩ :=
      new_ok_implies parse_age pacs_name dcm hash7 info hok
    rcases h with h | h | h | h | h | ⟨s, hs, hp⟩
    · exact m1 ((tts_none dcm _).mpr h)
    · exact m2 ((tts_none dcm _).mpr h)
    · exact m3 ((tts_none dcm _).mpr h)
    · exact m4 ((tts_none dcm _).mpr h)
    · exact m5 ((tts_none dcm _).mpr h)
    · exact m6 (removeNulStr s) (by rw [tts, hs]; rfl) hp
  cases hres : PacsFileRegistrationRequest.new parse_age pacs_name dcm hash7 with
  | ok info => exact absurd hres (hrej info)
  | error e =>
    refine ⟨?_, ?_, ?_, ⟨e, ?_⟩⟩ <;> simp [handle_dicom_instance, hres]

/-- A concrete DICOM object missing StudyDate, for the C5 witness. -/
def demoDcm : DicomObject := fun tag =>
  match tag with
  | .StudyInstanceUID => some "1.2"
  | .SeriesInstanceUID => some "1.2.3"
  | .SOPInstanceUID => some "1.2.3.4"
  | .PatientID => some "pid"
  | _ => none

/-- Witness for `required_tag_rejection`: an instance missing StudyDate. -/
theorem required_tag_rejection_witness :
    (demoDcm .StudyInstanceUID = none ∨ demoDcm .SeriesInstanceUID = none ∨
     demoDcm .SOPInstanceUID = none ∨ demoDcm .PatientID = none ∨
     demoDcm .StudyDate = none ∨
     (∃ s, demoDcm .StudyDate = some s ∧ parseDA (removeNulStr s) = none)) ∧
    ((handle_dicom_instance (fun _ => none) "PACS" demoDcm "abcdef0").1 = [] ∧
     (handle_dicom_instance (fun _ => none) "PACS" demoDcm "abcdef0").2.1 = [] ∧
     (handle_dicom_instance (fun _ => none) "PACS" demoDcm "abcdef0").2.2.length = 1 ∧
     ∃ e : RequiredTagError,
       (handle_dicom_instance (fun _ => none) "PACS" demoDcm "abcdef0").2.2 =
         [PublishLonkParams.required
           (Lonk.error
             (SeriesKey.new ((demoDcm .SeriesInstanceUID).getD "UNKNOWN") "PACS")
             e.text)]) :=
  ⟨Or.inr (Or.inr (Or.inr (Or.inr (Or.inl rfl)))),
   required_tag_rejection (fun _ => none) "PACS" demoDcm "abcdef0"
     (Or.inr (Or.inr (Or.inr (Or.inr (Or.inl rfl)))))⟩

/-! ## The series synchronizer (src/src/series_synchronizer.rs)

The synchronizer is concurrent: its receiver loop consumes `(key, event)`
pairs while spawned forwarder tasks (`enqueue_and_insert`) and Finish-flush
tasks (`wait_on_all_then_flush`) run and send downstream in any order.  We
embed it as a small-step transition system: a configuration holds the
unconsumed input, the receiver's `inflight_series` map, the spawned-but-not-
yet-completed forwarder tasks, the spawned flush tasks, and the downstream
trace; a step either lets the receiver consume the next input event or lets
one spawned task complete.  Task handles are identified by the `Nat` carried
by their `Instance` input event. -/

section Synchronizer

set_option linter.unusedSectionVars false

variable {K F : Type} [DecidableEq K]

/-- A configuration of the series synchronizer. -/
structure SyncConfig (K F : Type) where
  input : List (K × SeriesEvent Nat F)
  inflight : K → List Nat
  pending : List (Nat × K)
  flushes : List (K × F × List Nat)
  trace : List (K × SeriesEvent Nat F)

/-- One step of the synchronizer:

* `recvInstance` — src/src/series_synchronizer.rs lines 27-29 with
  `enqueue_and_insert` (lines 75-98): receive `(k, Instance(task))`, spawn a
  forwarder for it and append the forwarder to `inflight_series[k]` (creating
  the entry when absent; the function map treats an absent entry as `[]`).
* `recvFinishSome` — lines 30-37: receive `(k, Finish(f))` when
  `inflight_series.remove(&k)` yields the key's forwarders; spawn a
  `wait_on_all_then_flush` task over exactly those forwarders.
* `recvFinishNone` — lines 38-46: receive `(k, Finish(f))` with no entry for
  `k`; log and drop the event.
* `runForwarder` — a spawned forwarder completes: it sends
  `(k, Instance(value))` downstream.
* `runFlush` — lines 101-117: a spawned `wait_on_all_then_flush` completes;
  its unordered join requires every forwarder it awaits to have completed
  first, then it sends `(k, Finish(f))` downstream. -/
inductive SyncStep : SyncConfig K F → SyncConfig K F → Prop where
  | recvInstance (k : K) (t : Nat) (rest : List (K × SeriesEvent Nat F))
      (c : SyncConfig K F) (h : c.input = (k, .inst t) :: rest) :
      SyncStep c
        { c with
          input := rest
          inflight := fun k' => if k' = k then c.inflight k ++ [t] else c.inflight k'
          pending := (t, k) :: c.pending }
  | recvFinishSome (k : K) (f : F) (rest : List (K × SeriesEvent Nat F))
      (c : SyncConfig K F) (h : c.input = (k, .finish f) :: rest)
      (hne : c.inflight k ≠ []) :
      SyncStep c
        { c with
          input := rest
          inflight := fun k' => if k' = k then [] else c.inflight k'
          flushes := (k, f, c.inflight k) :: c.flushes }
  | recvFinishNone (k : K) (f : F) (rest : List (K × SeriesEvent Nat F))
      (c : SyncConfig K F) (h : c.input = (k, .finish f) :: rest)
      (hnone : c.inflight k = []) :
      SyncStep c { c with input := rest }
  | runForwarder (t : Nat) (k : K) (pre post : List (Nat × K))
      (c : SyncConfig K F) (h : c.pending = pre ++ (t, k) :: post) :
      SyncStep c
        { c with
          pending := pre ++ post
          trace := c.trace ++ [(k, .inst t)] }
  | runFlush (k : K) (f : F) (ts : List Nat)
      (pre post : List (K × F × List Nat)) (c : SyncConfig K F)
      (h : c.flushes = pre ++ (k, f, ts) :: post)
      (hdone : ∀ t ∈ ts, ∀ k', (t, k') ∉ c.pending) :
      SyncStep c
        { c with
          flushes := pre ++ post
          trace := c.trace ++ [(k, .finish f)] }

/-- The synchronizer's starting configuration on a given input stream. -/
def SyncInit (input : List (K × SeriesEvent Nat F)) : SyncConfig K F :=
  { input := input, inflight := fun _ => [], pending := [], flushes := [], trace := [] }

/-- Reachability of a configuration from the start. -/
def SyncReachable (input : List (K × SeriesEvent Nat F)) (c : SyncConfig K F) : Prop :=
  Relation.ReflTransGen SyncStep (SyncInit input) c

/-- Key-closedness of an event list: after any `Finish` event for key `k`, no
event for `k` follows.  Upstream (the association state loop, spec §4.4) emits
each key's Finish once, after all of the key's Instances. -/
def KeyClosed (k : K) : List (K × SeriesEvent Nat F) → Prop
  | [] => True
  | x :: rest =>
      ((x.1 = k ∧ ∃ f : F, x.2 = SeriesEvent.finish f) → ∀ y ∈ rest, y.1 ≠ k) ∧
      KeyClosed k rest

theorem keyClosed_nil (k : K) : KeyClosed (F := F) k [] := trivial

theorem keyClosed_tail {k : K} {x : K × SeriesEvent Nat F}
    {l : List (K × SeriesEvent Nat F)} (h : KeyClosed k (x :: l)) : KeyClosed k l :=
  h.2

theorem keyClosed_head_finish {k : K} {f : F} {l : List (K × SeriesEvent Nat F)}
    (h : KeyClosed k ((k, SeriesEvent.finish f) :: l)) : ∀ y ∈ l, y.1 ≠ k :=
  h.1 ⟨rfl, f, rfl⟩

theorem keyClosed_append_ne {k : K} (x : K × SeriesEvent Nat F) (hx : x.1 ≠ k) :
    ∀ l : List (K × SeriesEvent Nat F), KeyClosed k l → KeyClosed k (l ++ [x]) := by
  intro l
  induction l with
  | nil =>
    intro _
    exact ⟨fun hfin => absurd hfin.1 hx, trivial⟩
  | cons y rest ih =>
    intro h
    refine ⟨?_, ih h.2⟩
    intro hfin z hz
    rcases List.mem_append.mp hz with hz | hz
    · exact h.1 hfin z hz
    · rw [List.mem_singleton.mp hz]
      exact hx

theorem keyClosed_append_no_finish {k : K} (x : K × SeriesEvent Nat F) :
    ∀ l : List (K × SeriesEvent Nat F), KeyClosed k l →
      (∀ f : F, (k, SeriesEvent.finish f) ∉ l) → KeyClosed k (l ++ [x]) := by
  intro l
  induction l with
  | nil =>
    intro _ _
    exact ⟨fun _ y hy => absurd hy (List.not_mem_nil y), trivial⟩
  | cons y rest ih =>
    intro h hnf
    refine ⟨?_, ih h.2 (fun f hf => hnf f (List.mem_cons_of_mem _ hf))⟩
    intro hfin
    exfalso
    obtain ⟨hy1, f, hy2⟩ := hfin
    refine hnf f ?_
    have : y = (k, SeriesEvent.finish f) := by
      obtain ⟨ya, yb⟩ := y
      simp only at hy1 hy2
      rw [hy1, hy2]
    rw [← this]
    exact List.mem_cons_self _ _

/-- No source of further downstream events for key `k` remains. -/
def NoKeySources (c : SyncConfig K F) (k : K) : Prop :=
  (∀ x ∈ c.input, x.1 ≠ k) ∧ c.inflight k = [] ∧
  (∀ t, (t, k) ∉ c.pending) ∧ (∀ e ∈ c.flushes, e.1 ≠ k)

/-- A Finish for `k` has been sent downstream. -/
def SyncFinished (c : SyncConfig K F) (k : K) : Prop :=
  ∃ f : F, (k, SeriesEvent.finish f) ∈ c.trace

/-- The inductive invariant of the synchronizer: the unconsumed input is
key-closed; once a Finish for `k` went downstream no source of `k` events
remains; while a flush task for `k` is outstanding, `k` has no further input,
its receiver entry is cleared, and every pending `k` forwarder is among the
tasks the flush awaits; at most one flush per key is outstanding; every
pending forwarder is recorded in the receiver entry or in a flush;
and the downstream trace itself is key-closed. -/
def SyncInv (c : SyncConfig K F) : Prop :=
  (∀ k, KeyClosed k c.input) ∧
  (∀ k, SyncFinished c k → NoKeySources c k) ∧
  (∀ k, ∀ e ∈ c.flushes, e.1 = k →
     (∀ x ∈ c.input, x.1 ≠ k) ∧ c.inflight k = [] ∧
     (∀ t, (t, k) ∈ c.pending → t ∈ e.2.2)) ∧
  List.Pairwise (fun a b : K × F × List Nat => a.1 ≠ b.1) c.flushes ∧
  (∀ k t, (t, k) ∈ c.pending →
     t ∈ c.inflight k ∨ ∃ e, e ∈ c.flushes ∧ e.1 = k ∧ t ∈ e.2.2) ∧
  (∀ k, KeyClosed k c.trace)

theorem syncInv_init (input : List (K × SeriesEvent Nat F))
    (hwf : ∀ k, KeyClosed k input) : SyncInv (SyncInit input) := by
  refine ⟨hwf, ?_, ?_, ?_, ?_, ?_⟩
  · intro k hfin
    obtain ⟨f, hf⟩ := hfin
    exact absurd hf (List.not_mem_nil _)
  · intro k e he
    exact absurd he (List.not_mem_nil e)
  · exact List.Pairwise.nil
  · intro k t ht
    exact absurd ht (List.not_mem_nil _)
  · intro k
    exact keyClosed_nil k

theorem syncInv_step {c c' : SyncConfig K F} (hstep : SyncStep c c')
    (hinv : SyncInv c) : SyncInv c' := by
  obtain ⟨i1, i2, i3, i4, i5, i6⟩ := hinv
  cases hstep with
  | recvInstance k0 t rest c h =>
    have hhead : ((k0, SeriesEvent.inst t) : K × SeriesEvent Nat F) ∈ c.input := by
      rw [h]; exact List.mem_cons_self _ _
    refine ⟨?_, ?_, ?_, i4, ?_, i6⟩
    · intro k
      have := i1 k
      rw [h] at this
      exact keyClosed_tail this
    · intro k hfin
      have nk := i2 k hfin
      have hk0 : k0 ≠ k := nk.1 _ hhead
      refine ⟨?_, ?_, ?_, nk.2.2.2⟩
      · intro x hx
        exact nk.1 x (by rw [h]; exact List.mem_cons_of_mem _ hx)
      · simp only [if_neg (Ne.symm hk0)]
        exact nk.2.1
      · intro t' ht'
        rcases List.mem_cons.mp ht' with heq | htl
        · exact hk0 (congrArg Prod.snd heq).symm
        · exact nk.2.2.1 t' htl
    · intro k e he hk
      have oe := i3 k e he hk
      have hk0 : k0 ≠ k := oe.1 _ hhead
      refine ⟨?_, ?_, ?_⟩
      · intro x hx
        exact oe.1 x (by rw [h]; exact List.mem_cons_of_mem _ hx)
      · simp only [if_neg (Ne.symm hk0)]
        exact oe.2.1
      · intro t' ht'
        rcases List.mem_cons.mp ht' with heq | htl
        · exact absurd (congrArg Prod.snd heq).symm hk0
        · exact oe.2.2 t' htl
    · intro k t' ht'
      rcases List.mem_cons.mp ht' with heq | htl
      · have h1 : t' = t := congrArg Prod.fst heq
        have h2 : k = k0 := congrArg Prod.snd heq
        subst h1
        subst h2
        left
        simp only [if_pos rfl]
        exact List.mem_append_right _ (List.mem_singleton_self _)
      · rcases i5 k t' htl with hl | ⟨e, he, hek, het⟩
        · left
          by_cases hkk : k = k0
          · subst hkk
            simp only [if_pos rfl]
            exact List.mem_append_left _ hl
          · simp only [if_neg hkk]
            exact hl
        · exact Or.inr ⟨e, he, hek, het⟩
  | recvFinishSome k0 f rest c h hne =>
    have hhead : ((k0, SeriesEvent.finish f) : K × SeriesEvent Nat F) ∈ c.input := by
      rw [h]; exact List.mem_cons_self _ _
    have hrestk0 : ∀ y ∈ rest, y.1 ≠ k0 := by
      have := i1 k0
      rw [h] at this
      exact keyClosed_head_finish this
    have hnoflush : ∀ e ∈ c.flushes, e.1 ≠ k0 := by
      intro e he hek
      exact (i3 k0 e he hek).1 _ hhead rfl
    refine ⟨?_, ?_, ?_, ?_, ?_, i6⟩
    · intro k
      have := i1 k
      rw [h] at this
      exact keyClosed_tail this
    · intro k hfin
      have nk := i2 k hfin
      have hk0 : k0 ≠ k := nk.1 _ hhead
      refine ⟨?_, ?_, ?_, ?_⟩
      · intro x hx
        exact nk.1 x (by rw [h]; exact List.mem_cons_of_mem _ hx)
      · simp only [if_neg (Ne.symm hk0)]
        exact nk.2.1
      · exact nk.2.2.1
      · intro e he
        rcases List.mem_cons.mp he with heq | htl
        · rw [heq]
          exact hk0
        · exact nk.2.2.2 e htl
    · intro k e he hk
      rcases List.mem_cons.mp he with heq | htl
      · have hkk0 : k = k0 := by rw [heq] at hk; exact hk.symm
        subst hkk0
        refine ⟨hrestk0, by simp, ?_⟩
        intro t ht
        rcases i5 k t ht with hl | ⟨e', he', hek', _⟩
        · rw [heq]
          exact hl
        · exact absurd hek' (hnoflush e' he')
      · have oe := i3 k e htl hk
        have hk0 : k0 ≠ k := oe.1 _ hhead
        refine ⟨?_, ?_, oe.2.2⟩
        · intro x hx
          exact oe.1 x (by rw [h]; exact List.mem_cons_of_mem _ hx)
        · simp only [if_neg (Ne.symm hk0)]
          exact oe.2.1
    · exact List.Pairwise.cons (fun e he => fun hek => hnoflush e he hek.symm) i4
    · intro k t ht
      rcases i5 k t ht with hl | ⟨e, he, hek, het⟩
      · by_cases hkk : k = k0
        · subst hkk
          exact Or.inr ⟨(k, f, c.inflight k), List.mem_cons_self _ _, rfl, hl⟩
        · left
          simp only [if_neg hkk]
          exact hl
      · exact Or.inr ⟨e, List.mem_cons_of_mem _ he, hek, het⟩
  | recvFinishNone k0 f rest c h hnone =>
    refine ⟨?_, ?_, ?_, i4, i5, i6⟩
    · intro k
      have := i1 k
      rw [h] at this
      exact keyClosed_tail this
    · intro k hfin
      have nk := i2 k hfin
      exact ⟨fun x hx => nk.1 x (by rw [h]; exact List.mem_cons_of_mem _ hx),
        nk.2.1, nk.2.2.1, nk.2.2.2⟩
    · intro k e he hk
      have oe := i3 k e he hk
      exact ⟨fun x hx => oe.1 x (by rw [h]; exact List.mem_cons_of_mem _ hx),
        oe.2.1, oe.2.2⟩
  | runForwarder t0 k0 pre post c h =>
    have hp0 : ((t0, k0) : Nat × K) ∈ c.pending := by
      rw [h]
      exact List.mem_append_right _ (List.mem_cons_self _ _)
    have hsub : ∀ x : Nat × K, x ∈ pre ++ post → x ∈ c.pending := by
      intro x hx
      rw [h]
      rcases List.mem_append.mp hx with hx | hx
      · exact List.mem_append_left _ hx
      · exact List.mem_append_right _ (List.mem_cons_of_mem _ hx)
    refine ⟨i1, ?_, ?_, i4, ?_, ?_⟩
    · intro k hfin
      obtain ⟨f, hf⟩ := hfin
      rcases List.mem_append.mp hf with hf | hf
      · have nk := i2 k ⟨f, hf⟩
        refine ⟨nk.1, nk.2.1, ?_, nk.2.2.2⟩
        intro t ht
        exact nk.2.2.1 t (hsub _ ht)
      · exfalso
        have := List.mem_singleton.mp hf
        exact SeriesEvent.noConfusion (congrArg Prod.snd this)
    · intro k e he hk
      have oe := i3 k e he hk
      exact ⟨oe.1, oe.2.1, fun t ht => oe.2.2 t (hsub _ ht)⟩
    · intro k t ht
      exact i5 k t (hsub _ ht)
    · intro k
      by_cases hkk : k = k0
      · subst hkk
        refine keyClosed_append_no_finish _ _ (i6 k) ?_
        intro f hf
        exact (i2 k ⟨f, hf⟩).2.2.1 t0 hp0
      · exact keyClosed_append_ne _ (fun hc => hkk hc.symm) _ (i6 k)
  | runFlush k0 f ts pre post c h hdone =>
    have he0 : ((k0, f, ts) : K × F × List Nat) ∈ c.flushes := by
      rw [h]
      exact List.mem_append_right _ (List.mem_cons_self _ _)
    have oe0 := i3 k0 (k0, f, ts) he0 rfl
    have hpairs := i4
    rw [h] at hpairs
    have hsplit := List.pairwise_append.mp hpairs
    have hpre : ∀ a ∈ pre, a.1 ≠ k0 :=
      fun a ha => hsplit.2.2 a ha (k0, f, ts) (List.mem_cons_self _ _)
    have hpost : ∀ b ∈ post, b.1 ≠ k0 := by
      intro b hb hbk
      exact (List.rel_of_pairwise_cons hsplit.2.1 hb) hbk.symm
    have hsubfl : ∀ e : K × F × List Nat, e ∈ pre ++ post → e ∈ c.flushes := by
      intro e hee
      rw [h]
      rcases List.mem_append.mp hee with hee | hee
      · exact List.mem_append_left _ hee
      · exact List.mem_append_right _ (List.mem_cons_of_mem _ hee)
    have hnofin0 : ¬ SyncFinished c k0 := by
      intro hfin
      exact (i2 k0 hfin).2.2.2 _ he0 rfl
    refine ⟨i1, ?_, ?_, ?_, ?_, ?_⟩
    · intro k hfin
      obtain ⟨g, hg⟩ := hfin
      rcases List.mem_append.mp hg with hg | hg
      · have nk := i2 k ⟨g, hg⟩
        refine ⟨nk.1, nk.2.1, nk.2.2.1, ?_⟩
        intro e hee
        exact nk.2.2.2 e (hsubfl e hee)
      · have hk : k = k0 := congrArg Prod.fst (List.mem_singleton.mp hg)
        subst hk
        refine ⟨oe0.1, oe0.2.1, ?_, ?_⟩
        · intro t ht
          exact hdone t (oe0.2.2 t ht) k ht
        · intro e hee
          rcases List.mem_append.mp hee with hee | hee
          · exact hpre e hee
          · exact hpost e hee
    · intro k e hee hk
      have oe := i3 k e (hsubfl e hee) hk
      exact oe
    · have hsb : (pre ++ post).Sublist (pre ++ (k0, f, ts) :: post) :=
        List.Sublist.append_left (List.sublist_cons_self _ _) pre
      exact List.Pairwise.sublist hsb (h ▸ i4)
    · intro k t ht
      rcases i5 k t ht with hl | ⟨e, hee, hek, het⟩
      · exact Or.inl hl
      · rw [h] at hee
        rcases List.mem_append.mp hee with hee | hee
        · exact Or.inr ⟨e, List.mem_append_left _ hee, hek, het⟩
        · rcases List.mem_cons.mp hee with heq | hee
          · exfalso
            have hkk0 : k = k0 := by rw [heq] at hek; exact hek.symm
            have hts : t ∈ ts := by rw [heq] at het; exact het
            exact hdone t hts k (hkk0 ▸ ht)
          · exact Or.inr ⟨e, List.mem_append_right _ hee, hek, het⟩
    · intro k
      by_cases hkk : k = k0
      · subst hkk
        refine keyClosed_append_no_finish _ _ (i6 k) ?_
        intro g hg
        exact hnofin0 ⟨g, hg⟩
      · exact keyClosed_append_ne _ (fun hc => hkk hc.symm) _ (i6 k)

theorem syncInv_reachable (input : List (K × SeriesEvent Nat F))
    (hwf : ∀ k, KeyClosed k input) (c : SyncConfig K F)
    (hc : SyncReachable input c) : SyncInv c := by
  induction hc with
  | refl => exact syncInv_init input hwf
  | tail _ hstep ih => exact syncInv_step hstep ih

/-- **C1.**  For a key-closed input stream (each key's single Finish arrives
after all of the key's Instances, as the association state loop guarantees),
in every reachable configuration of the series synchronizer the downstream
trace is key-closed — once `Finish(k)` has been sent, no further event for `k`
is ever sent, so Finish is the last event per key — and at any point where
`Finish(k)` is in the trace, every forwarder task spawned for `k` has
completed (none is pending) and no flush task for `k` remains: the flush that
sent `Finish(k)` awaited all of `k`'s forwarders (the guard of `runFlush`, the
unordered join of `wait_on_all_then_flush`) before forwarding. -/
theorem series_synchronizer_finish_last (input : List (K × SeriesEvent Nat F))
    (hwf : ∀ k, KeyClosed k input) (c : SyncConfig K F)
    (hc : SyncReachable input c) :
    (∀ k, KeyClosed k c.trace) ∧
    (∀ (k : K) (f : F), (k, SeriesEvent.finish f) ∈ c.trace →
      (∀ t, (t, k) ∉ c.pending) ∧ (∀ e ∈ c.flushes, e.1 ≠ k)) := by
  have hinv := syncInv_reachable input hwf c hc
  exact ⟨hinv.2.2.2.2.2, fun k f hf =>
    ⟨(hinv.2.1 k ⟨f, hf⟩).2.2.1, (hinv.2.1 k ⟨f, hf⟩).2.2.2⟩⟩

end Synchronizer

/-- A two-event input stream for the C1 witness: one instance, then Finish. -/
def demoSyncInput : List (Nat × SeriesEvent Nat Nat) := [(0, .inst 5), (0, .finish 7)]

/-- The configuration the C1 witness run ends in: everything consumed, both
events forwarded in order. -/
def demoSyncFinal : SyncConfig Nat Nat :=
  { input := []
    inflight := fun k' => if k' = 0 then [] else if k' = 0 then [5] else []
    pending := []
    flushes := []
    trace := [(0, .inst 5), (0, .finish 7)] }

/-- Witness for `series_synchronizer_finish_last`: the full four-step run of
the synchronizer on `demoSyncInput`. -/
theorem series_synchronizer_finish_last_witness :
    (∀ k : Nat, KeyClosed k demoSyncInput) ∧
    ((∀ k : Nat, KeyClosed k demoSyncFinal.trace) ∧
     (∀ (k : Nat) (f : Nat), (k, SeriesEvent.finish f) ∈ demoSyncFinal.trace →
       (∀ t, (t, k) ∉ demoSyncFinal.pending) ∧
       (∀ e ∈ demoSyncFinal.flushes, e.1 ≠ k))) := by
  have hwf : ∀ k : Nat, KeyClosed k demoSyncInput := by
    intro k
    refine ⟨?_, ?_, trivial⟩
    · rintro ⟨-, f, hf⟩
      exact SeriesEvent.noConfusion hf
    · intro _ y hy
      exact absurd hy (List.not_mem_nil y)
  refine ⟨hwf, series_synchronizer_finish_last demoSyncInput hwf demoSyncFinal ?_⟩
  refine Relation.ReflTransGen.head
    (SyncStep.recvInstance 0 5 [((0 : Nat), SeriesEvent.finish 7)] _ rfl) ?_
  refine Relation.ReflTransGen.head
    (SyncStep.recvFinishSome 0 7 [] _ rfl (by simp)) ?_
  refine Relation.ReflTransGen.head
    (SyncStep.runForwarder 5 0 [] [] _ rfl) ?_
  refine Relation.ReflTransGen.head
    (SyncStep.runFlush 0 7 _ [] [] _ rfl (by simp)) ?_
  exact Relation.ReflTransGen.refl

end Oxidicom
